import Mathlib

/-!
Shallow embedding of the foodgram backend core logic: the data model
(`recipes/models.py`, `users/models.py`), the recipe write pipeline and read
projection (`api/serializers.py`), and the relationship toggles, recipe query
filter and shopping-list aggregation (`api/views.py`).

Tables are lists kept in primary-key (insertion) order; machine ids are `Nat`,
amounts and cooking times are `Int` (Django `PositiveIntegerField` values fit);
fallible operations return `Except` or a response tag paired with the new state.
-/

namespace Foodgram

/-- `recipes.models.Tag`: pk, unique name, unique slug. -/
structure Tag where
  id : Nat
  name : String
  slug : String
deriving DecidableEq

/-- `recipes.models.Ingredient`: pk, unique name, measurement unit. -/
structure Ingredient where
  id : Nat
  name : String
  measurement_unit : String
deriving DecidableEq

/-- `recipes.models.Recipe`: scalar columns plus the many-to-many tag set
(the tag ids held by the recipe-tags join table). -/
structure Recipe where
  id : Nat
  author : Nat
  name : String
  image : String
  text : String
  cooking_time : Int
  tags : List Nat
deriving DecidableEq

/-- `recipes.models.IngredientInRecipe`: join row (recipe fk, ingredient fk,
amount), unique per (recipe, ingredient). -/
structure IngredientInRecipe where
  recipe : Nat
  ingredient : Nat
  amount : Int
deriving DecidableEq

/-- Database state: one list per table, in primary-key (insertion) order.
`favorites`, `shopping_cart` and `subscriptions` are the three (user, target)
join tables; users are carried by id only. -/
structure DB where
  users : List Nat
  tags : List Tag
  ingredients : List Ingredient
  recipes : List Recipe
  ingredientinrecipe : List IngredientInRecipe
  favorites : List (Nat × Nat)
  shopping_cart : List (Nat × Nat)
  subscriptions : List (Nat × Nat)
deriving DecidableEq

/-- Invariants enforced by the Django models: unique pks and unique names in
the catalogs, unique-together constraints on the join tables, and foreign-key
integrity of `IngredientInRecipe`. -/
def DB.WF (db : DB) : Prop :=
  (db.recipes.map Recipe.id).Nodup ∧
  (db.tags.map Tag.id).Nodup ∧
  (db.tags.map Tag.name).Nodup ∧
  (db.ingredients.map Ingredient.id).Nodup ∧
  (db.ingredients.map Ingredient.name).Nodup ∧
  (db.ingredientinrecipe.map (fun row => (row.recipe, row.ingredient))).Nodup ∧
  (∀ row ∈ db.ingredientinrecipe, row.recipe ∈ db.recipes.map Recipe.id) ∧
  (∀ row ∈ db.ingredientinrecipe,
    row.ingredient ∈ db.ingredients.map Ingredient.id) ∧
  db.favorites.Nodup ∧ db.shopping_cart.Nodup ∧ db.subscriptions.Nodup

instance (db : DB) : Decidable db.WF := by
  unfold DB.WF; infer_instance

/-- HTTP method of a toggle request (the router only admits these two). -/
inductive Method
  | post
  | delete
deriving DecidableEq

/-- Response tags of the toggle endpoints, one per distinct branch of the
view code. `alreadyExists` and `relMissing` are both HTTP 400 in the code;
`selfSubscribe` is the 400 of the self-subscription guard. -/
inductive Resp
  | created        -- 201
  | noContent      -- 204
  | alreadyExists  -- 400, join row already present on add
  | relMissing     -- 400, join row absent on remove
  | selfSubscribe  -- 400, subscribe(u, u)
  | notFound       -- 404, target entity absent
deriving DecidableEq

/-- `RecipeViewSet.favorite` (`api/views.py` 310-341): resolve the recipe
(404 when absent), then add (400 when present, else insert one row) or remove
(delete the matching rows, 400 when none). -/
def favoriteAction (db : DB) (u rid : Nat) (m : Method) : Resp × DB :=
  match db.recipes.find? (fun r => r.id = rid) with
  | none => (.notFound, db)
  | some _ =>
    match m with
    | .post =>
      if (u, rid) ∈ db.favorites then (.alreadyExists, db)
      else (.created, { db with favorites := db.favorites ++ [(u, rid)] })
    | .delete =>
      if (u, rid) ∈ db.favorites then
        (.noContent,
          { db with favorites := db.favorites.filter (fun p => p ≠ (u, rid)) })
      else (.relMissing, db)

/-- `RecipeViewSet.shopping_cart` (`api/views.py` 277-308): same shape as
`favorite`, against the `ShoppingCart` table. -/
def shoppingCartAction (db : DB) (u rid : Nat) (m : Method) : Resp × DB :=
  match db.recipes.find? (fun r => r.id = rid) with
  | none => (.notFound, db)
  | some _ =>
    match m with
    | .post =>
      if (u, rid) ∈ db.shopping_cart then (.alreadyExists, db)
      else
        (.created,
          { db with shopping_cart := db.shopping_cart ++ [(u, rid)] })
    | .delete =>
      if (u, rid) ∈ db.shopping_cart then
        (.noContent,
          { db with shopping_cart :=
              db.shopping_cart.filter (fun p => p ≠ (u, rid)) })
      else (.relMissing, db)

/-- `UserViewSet.subscribe` (`api/views.py` 104-145): resolve the target user
(404 when absent), reject self-subscription (400), then the add/remove toggle
on `Subscription`. -/
def subscribeAction (db : DB) (u target : Nat) (m : Method) : Resp × DB :=
  if target ∈ db.users then
    if target = u then (.selfSubscribe, db)
    else
      match m with
      | .post =>
        if (u, target) ∈ db.subscriptions then (.alreadyExists, db)
        else
          (.created,
            { db with subscriptions := db.subscriptions ++ [(u, target)] })
      | .delete =>
        if (u, target) ∈ db.subscriptions then
          (.noContent,
            { db with subscriptions :=
                db.subscriptions.filter (fun p => p ≠ (u, target)) })
        else (.relMissing, db)
  else (.notFound, db)

/-! ## Recipe write validation (`api/serializers.py` 171-244) -/

/-- Raw entry of the `ingredients` list of a write request: either key may be
absent from the body. -/
structure RawIngredientEntry where
  id : Option Nat
  amount : Option Int
deriving DecidableEq

/-- Body of a `POST/PATCH /recipes` request. The scalar fields are always
supplied (no claim exercises their absence); `tags`/`ingredients` are `none`
when the key is absent from the body. -/
structure RecipeInput where
  name : String
  image : String
  text : String
  cooking_time : Int
  tags : Option (List Nat)
  ingredients : Option (List RawIngredientEntry)
deriving DecidableEq

/-- The distinct validation failures raised by the serializer code. -/
inductive VErr
  | requiredField        -- DRF: required key absent from the body
  | doesNotExist         -- PrimaryKeyRelatedField: pk not in the catalog
  | tagsEmpty            -- empty tag list
  | tagsDuplicate        -- validate_tags: repeated tag names
  | amountNotPositive    -- IngredientAmountSerializer.validate_amount
  | cookingTimeTooSmall  -- validate_cooking_time
  | ingredientsEmpty     -- validate(): absent or empty ingredient list
  | ingredientsDuplicate -- validate(): repeated ingredient ids
deriving DecidableEq

/-- The per-field error lists DRF's `to_internal_value` collects. -/
structure FieldErrors where
  tags : List VErr
  ingredients : List VErr
  cooking_time : List VErr
deriving DecidableEq

/-- A `ValidationError`: either the field-keyed dictionary raised by the field
stage, or a non-field error raised by the cross-field `validate`. -/
inductive VError
  | fieldErrors : FieldErrors → VError
  | nonField : VErr → VError
deriving DecidableEq

/-- `PrimaryKeyRelatedField(queryset=Tag.objects.all(), many=True)`: resolve
each id against the tag catalog, in order; `none` when any pk is absent. -/
def resolveTags (db : DB) : List Nat → Option (List Tag)
  | [] => some []
  | i :: ids =>
    match db.tags.find? (fun t => t.id = i), resolveTags db ids with
    | some t, some ts => some (t :: ts)
    | _, _ => none

/-- Field-stage validation of `tags`: pk resolution, then `validate_tags`
(empty check first, then the repeated-name check). Returns the field's error
list and, when clean, the resolved tags. In partial mode an absent key is
skipped; otherwise it is a required-field error. -/
def tagsFieldStage (db : DB) (patch : Bool) (tags? : Option (List Nat)) :
    List VErr × Option (List Tag) :=
  match tags? with
  | none => if patch then ([], none) else ([.requiredField], none)
  | some ids =>
    match resolveTags db ids with
    | none => ([.doesNotExist], none)
    | some ts =>
      if ts.isEmpty then ([.tagsEmpty], none)
      else if (ts.map Tag.name).Nodup then ([], some ts)
      else ([.tagsDuplicate], none)

/-- Field-stage validation of one `ingredients` entry
(`IngredientAmountSerializer`): both keys required, pk resolution for `id`,
and `validate_amount` (amount ≤ 0 rejected). -/
def entryFieldStage (db : DB) (e : RawIngredientEntry) :
    List VErr × Option (Ingredient × Int) :=
  let idRes : List VErr × Option Ingredient :=
    match e.id with
    | none => ([.requiredField], none)
    | some i =>
      match db.ingredients.find? (fun x => x.id = i) with
      | none => ([.doesNotExist], none)
      | some ing => ([], some ing)
  let amtRes : List VErr × Option Int :=
    match e.amount with
    | none => ([.requiredField], none)
    | some a => if a ≤ 0 then ([.amountNotPositive], none) else ([], some a)
  match idRes.2, amtRes.2 with
  | some ing, some a => ([], some (ing, a))
  | _, _ => (idRes.1 ++ amtRes.1, none)

/-- Field-stage validation of the `ingredients` list
(`IngredientAmountSerializer(many=True)`): every entry is validated and all
entry errors are collected; the validated list exists only when every entry is
clean. An empty list passes this stage (`allow_empty` default). -/
def ingredientsFieldStage (db : DB) (patch : Bool)
    (es? : Option (List RawIngredientEntry)) :
    List VErr × Option (List (Ingredient × Int)) :=
  match es? with
  | none => if patch then ([], none) else ([.requiredField], none)
  | some es =>
    let results := es.map (entryFieldStage db)
    if results.all (fun r => r.1.isEmpty) then
      ([], some (results.filterMap (fun r => r.2)))
    else (results.flatMap (fun r => r.1), none)

/-- Field-stage validation of `cooking_time` (`validate_cooking_time`). -/
def cookingTimeFieldStage (ct : Int) : List VErr :=
  if ct < 1 then [.cookingTimeTooSmall] else []

/-- The validated data reaching `create`/`update`: resolved tags, resolved
(ingredient, amount) pairs, and the scalar fields. The cross-field `validate`
guarantees both lists are present and non-empty, even on partial update. -/
structure ValidatedData where
  name : String
  image : String
  text : String
  cooking_time : Int
  tags : List Tag
  ingredients : List (Ingredient × Int)
deriving DecidableEq

/-- `RecipeCreateSerializer.run_validation`: DRF's `to_internal_value` first
runs every field's validators, collecting the errors of all fields into one
field-keyed `ValidationError`; only when every field is clean does the
cross-field `validate` (serializers.py 210-237) run, its checks in source
order with the first failure winning: ingredient list non-empty, per-entry
key presence (never firing on field-validated data), no repeated ingredient
ids, tag list present and non-empty. `patch` is DRF's partial mode (PATCH):
absent fields are skipped instead of required. -/
def runValidation (db : DB) (patch : Bool) (inp : RecipeInput) :
    Except VError ValidatedData :=
  let tagRes := tagsFieldStage db patch inp.tags
  let ingRes := ingredientsFieldStage db patch inp.ingredients
  let ctErrs := cookingTimeFieldStage inp.cooking_time
  if tagRes.1.isEmpty && ingRes.1.isEmpty && ctErrs.isEmpty then
    match ingRes.2 with
    | none => .error (.nonField .ingredientsEmpty)
    | some [] => .error (.nonField .ingredientsEmpty)
    | some pairs =>
      if (pairs.map (fun p => p.1.id)).Nodup then
        match tagRes.2 with
        | none => .error (.nonField .tagsEmpty)
        | some [] => .error (.nonField .tagsEmpty)
        | some ts =>
          .ok { name := inp.name, image := inp.image, text := inp.text,
                cooking_time := inp.cooking_time, tags := ts,
                ingredients := pairs }
      else .error (.nonField .ingredientsDuplicate)
  else
    .error (.fieldErrors ⟨tagRes.1, ingRes.1, ctErrs⟩)

/-! ## Recipe write pipeline (`api/serializers.py` 246-294) -/

/-- Largest recipe pk so far, plus one: the pk the store assigns next. -/
def freshRecipeId (db : DB) : Nat :=
  (db.recipes.map Recipe.id).foldr max 0 + 1

/-- `Recipe.objects.create(author=author, **validated_data)`: append the new
recipe row with its scalar fields and a still-empty tag set. -/
def insertRecipeStep (rid author : Nat) (vd : ValidatedData) (db : DB) : DB :=
  { db with recipes := db.recipes ++
      [{ id := rid, author := author, name := vd.name, image := vd.image,
         text := vd.text, cooking_time := vd.cooking_time, tags := [] }] }

/-- `recipe.tags.set(tags)`: replace the recipe's tag set with the one
supplied. -/
def setTagsStep (rid : Nat) (ts : List Tag) (db : DB) : DB :=
  { db with recipes := db.recipes.map (fun r =>
      if r.id = rid then { r with tags := ts.map Tag.id } else r) }

/-- `IngredientInRecipe.objects.create(recipe=.., ingredient=.., amount=..)`:
append one join row. (The `get_object_or_404` before it re-resolves a pk the
validator already resolved against the same catalog, so it succeeds.) -/
def insertRowStep (rid : Nat) (p : Ingredient × Int) (db : DB) : DB :=
  { db with ingredientinrecipe :=
      db.ingredientinrecipe ++ [⟨rid, p.1.id, p.2⟩] }

/-- `instance.ingredients.clear()`: delete every join row of the recipe. -/
def clearRowsStep (rid : Nat) (db : DB) : DB :=
  { db with ingredientinrecipe :=
      db.ingredientinrecipe.filter (fun row => row.recipe ≠ rid) }

/-- `IngredientInRecipe.objects.update_or_create(recipe=.., ingredient=..,
defaults={"amount": ..})`: overwrite the matching row's amount when one
exists, otherwise insert a fresh row. -/
def upsertRowStep (rid : Nat) (p : Ingredient × Int) (db : DB) : DB :=
  if db.ingredientinrecipe.any
      (fun row => row.recipe = rid ∧ row.ingredient = p.1.id) then
    { db with ingredientinrecipe := db.ingredientinrecipe.map (fun row =>
        if row.recipe = rid ∧ row.ingredient = p.1.id then
          { row with amount := p.2 }
        else row) }
  else
    { db with ingredientinrecipe :=
        db.ingredientinrecipe ++ [⟨rid, p.1.id, p.2⟩] }

/-- `super().update(instance, validated_data)` (ModelSerializer): assign each
remaining scalar field and save the recipe row. -/
def setScalarsStep (rid : Nat) (vd : ValidatedData) (db : DB) : DB :=
  { db with recipes := db.recipes.map (fun r =>
      if r.id = rid then
        { r with name := vd.name, image := vd.image, text := vd.text,
                 cooking_time := vd.cooking_time }
      else r) }

/-- The primitive database writes of `RecipeCreateSerializer.create`
(serializers.py 246-264), in source order: insert the recipe row, set the tag
set, then insert one ingredient row per validated pair. -/
def createSteps (rid author : Nat) (vd : ValidatedData) : List (DB → DB) :=
  insertRecipeStep rid author vd :: setTagsStep rid vd.tags ::
    vd.ingredients.map (insertRowStep rid)

/-- The primitive database writes of `RecipeCreateSerializer.update`
(serializers.py 266-287), in source order: set the tag set, clear the
ingredient rows, upsert one row per validated pair, then write the scalar
fields (`super().update`). After validation `tags` and `ingredients` are
always present, so the two `is not None` guards always take their write
branch. -/
def updateSteps (rid : Nat) (vd : ValidatedData) : List (DB → DB) :=
  setTagsStep rid vd.tags :: clearRowsStep rid ::
    (vd.ingredients.map (upsertRowStep rid) ++ [setScalarsStep rid vd])

/-- Run the write steps to completion. -/
def applySteps (steps : List (DB → DB)) (db : DB) : DB :=
  steps.foldl (fun s f => f s) db

/-- Every state the database passes through while the steps run, initial and
final states included. The write pipeline is not wrapped in a transaction
(`transaction.atomic` appears nowhere in the backend), so each of these
states is individually committed and observable by concurrent readers. -/
def stepTrace (steps : List (DB → DB)) (db : DB) : List DB :=
  List.scanl (fun s f => f s) db steps

/-- `POST /recipes`: validate, then run the create writes; returns the new
state and the new recipe's id. On error no write has happened. -/
def runCreate (db : DB) (author : Nat) (inp : RecipeInput) :
    Except VError (DB × Nat) :=
  match runValidation db false inp with
  | .error e => .error e
  | .ok vd =>
    .ok (applySteps (createSteps (freshRecipeId db) author vd) db,
      freshRecipeId db)

/-- `PATCH /recipes/{id}`: validate in partial mode, then run the update
writes. On error no write has happened. -/
def runUpdate (db : DB) (rid : Nat) (inp : RecipeInput) : Except VError DB :=
  match runValidation db true inp with
  | .error e => .error e
  | .ok vd => .ok (applySteps (updateSteps rid vd) db)

/-! ## Recipe read projection (`api/serializers.py` 124-168) -/

/-- One entry of `IngredientInRecipeSerializer`: the ingredient's id, name and
measurement unit plus the recipe-specific amount. -/
structure IngredientView where
  id : Nat
  name : String
  measurement_unit : String
  amount : Int
deriving DecidableEq

/-- The denormalized recipe view assembled by `RecipeListSerializer`. -/
structure RecipeView where
  id : Nat
  author : Nat
  name : String
  image : String
  text : String
  cooking_time : Int
  tags : List Tag
  ingredients : List IngredientView
  is_favorited : Bool
  is_in_shopping_cart : Bool
deriving DecidableEq

/-- `RecipeListSerializer` applied to recipe `rid` for `viewer`
(`none` = unauthenticated): tags as full objects, ingredient rows joined with
the catalog in insertion order, and the viewer-specific flags
(`get_is_favorited` / `get_is_in_shopping_cart`, false when unauthenticated). -/
def projectRecipe (db : DB) (viewer : Option Nat) (rid : Nat) :
    Option RecipeView :=
  (db.recipes.find? (fun r => r.id = rid)).map (fun r =>
    { id := r.id
      author := r.author
      name := r.name
      image := r.image
      text := r.text
      cooking_time := r.cooking_time
      tags := r.tags.filterMap (fun tid => db.tags.find? (fun t => t.id = tid))
      ingredients :=
        (db.ingredientinrecipe.filter (fun row => row.recipe = r.id)).filterMap
          (fun row =>
            (db.ingredients.find? (fun i => i.id = row.ingredient)).map
              (fun i => ⟨i.id, i.name, i.measurement_unit, row.amount⟩))
      is_favorited :=
        match viewer with
        | some u => decide ((u, r.id) ∈ db.favorites)
        | none => false
      is_in_shopping_cart :=
        match viewer with
        | some u => decide ((u, r.id) ∈ db.shopping_cart)
        | none => false })

/-! ## Recipe query filter (`api/views.py` 212-234) -/

/-- Query parameters of `RecipeViewSet.get_queryset`; `tags` is the repeated
`tags=<slug>` parameter (`getlist`). -/
structure RecipeParams where
  is_favorited : Option String
  is_in_shopping_cart : Option String
  author : Option Nat
  tags : List String
deriving DecidableEq

/-- The slugs of a recipe's tags (the SQL join `recipe.tags` → `Tag.slug`). -/
def recipeTagSlugs (db : DB) (r : Recipe) : List String :=
  r.tags.filterMap (fun tid =>
    (db.tags.find? (fun t => t.id = tid)).map Tag.slug)

/-- `queryset.filter(tags__slug__in=slugs).distinct()`: the SQL join emits one
copy of the recipe per matching tag row, and `distinct()` collapses the
duplicates keeping primary-key order. -/
def tagsJoinFilter (db : DB) (q : List Recipe) (slugs : List String) :
    List Recipe :=
  (q.flatMap (fun r =>
    ((recipeTagSlugs db r).filter (fun s => s ∈ slugs)).map (fun _ => r))).dedup

/-- `RecipeViewSet.get_queryset`: the base queryset ordered by id, narrowed in
turn by `is_favorited`, `is_in_shopping_cart`, `author` and `tags`. Each flag
applies only when the parameter equals `"1"` and the viewer is authenticated. -/
def get_queryset (db : DB) (viewer : Option Nat) (p : RecipeParams) :
    List Recipe :=
  let q := db.recipes
  let q := match viewer with
    | some u =>
      if p.is_favorited = some "1" then
        q.filter (fun r => (u, r.id) ∈ db.favorites)
      else q
    | none => q
  let q := match viewer with
    | some u =>
      if p.is_in_shopping_cart = some "1" then
        q.filter (fun r => (u, r.id) ∈ db.shopping_cart)
      else q
    | none => q
  let q := match p.author with
    | some a => q.filter (fun r => r.author = a)
    | none => q
  if p.tags.isEmpty then q else tagsJoinFilter db q p.tags

/-! ## Shopping-list aggregation (`api/views.py` 250-275) -/

/-- `IngredientInRecipe.objects.filter(recipe__shopping_cart__user=user)`:
every ingredient row of a recipe in the user's cart. -/
def cartRows (db : DB) (u : Nat) : List IngredientInRecipe :=
  db.ingredientinrecipe.filter (fun row => (u, row.recipe) ∈ db.shopping_cart)

/-- The `.values('ingredient__name', 'ingredient__measurement_unit')` join:
each cart row as a (name, unit, amount) triple. -/
def cartEntries (db : DB) (u : Nat) : List (String × String × Int) :=
  (cartRows db u).filterMap (fun row =>
    (db.ingredients.find? (fun i => i.id = row.ingredient)).map
      (fun i => (i.name, i.measurement_unit, row.amount)))

/-- Insertion into a list of (name, unit) grouping keys kept sorted by name.
The comparison is the lexicographic order on the character lists, which is
exactly the `String` order (`String.le_iff_toList_le`). -/
def insertKey (k : String × String) :
    List (String × String) → List (String × String)
  | [] => [k]
  | k' :: ks =>
    if k.1.data ≤ k'.1.data then k :: k' :: ks else k' :: insertKey k ks

/-- Sort the grouping keys alphabetically by ingredient name
(the `.order_by('ingredient__name')` clause). -/
def sortKeys : List (String × String) → List (String × String)
  | [] => []
  | k :: ks => insertKey k (sortKeys ks)

/-- The `GROUP BY` of `.values(...).annotate(Sum('amount'))` with
`ORDER BY ingredient__name`: one (name, unit, total) row per distinct
(name, unit) value pair, sorted by name. -/
def aggregate (db : DB) (u : Nat) : List (String × String × Int) :=
  (sortKeys ((cartEntries db u).map (fun e => (e.1, e.2.1))).dedup).map
    (fun k =>
      (k.1, k.2,
        ((cartEntries db u).filter
            (fun e => e.1 = k.1 ∧ e.2.1 = k.2)).foldl
          (fun s e => s + e.2.2) 0))

/-- The body built by `download_shopping_cart`: each aggregated row rendered
as a `"{name} - {total} {unit}\n"` line, concatenated in order. -/
def shoppingCartFile (db : DB) (u : Nat) : String :=
  (aggregate db u).foldl
    (fun acc e =>
      acc ++ (e.1 ++ " - " ++ toString e.2.2 ++ " " ++ e.2.1 ++ "\n"))
    ""

/-! ## General list lemmas -/

lemma filter_ne_of_not_mem {α : Type _} [DecidableEq α] {l : List α} {a : α}
    (ha : a ∉ l) : l.filter (fun x => x ≠ a) = l :=
  List.filter_eq_self.mpr (fun x hx =>
    decide_eq_true (fun h : x = a => ha (h ▸ hx)))

lemma length_filter_ne {α : Type _} [DecidableEq α] :
    ∀ (l : List α) (a : α), l.Nodup → a ∈ l →
      (l.filter (fun x => x ≠ a)).length + 1 = l.length
  | [], a, _, ha => absurd ha (List.not_mem_nil a)
  | b :: t, a, hnd, ha => by
    rcases List.nodup_cons.mp hnd with ⟨hb, ht⟩
    by_cases hba : b = a
    · subst hba
      rw [List.filter_cons_of_neg (by simp), filter_ne_of_not_mem hb,
        List.length_cons]
    · have hat : a ∈ t := by
        rcases List.mem_cons.mp ha with h | h
        · exact absurd h.symm hba
        · exact h
      rw [List.filter_cons_of_pos (by simp [hba]), List.length_cons,
        List.length_cons, length_filter_ne t a ht hat]

/-! ## Frame lemmas for the toggle actions -/

/-- `favorite` touches only the `Favorite` table, and only rows of the acting
user. -/
lemma favoriteAction_frame (db : DB) (u rid : Nat) (m : Method) :
    (favoriteAction db u rid m).2.users = db.users ∧
    (favoriteAction db u rid m).2.tags = db.tags ∧
    (favoriteAction db u rid m).2.ingredients = db.ingredients ∧
    (favoriteAction db u rid m).2.recipes = db.recipes ∧
    (favoriteAction db u rid m).2.ingredientinrecipe = db.ingredientinrecipe ∧
    (favoriteAction db u rid m).2.shopping_cart = db.shopping_cart ∧
    (favoriteAction db u rid m).2.subscriptions = db.subscriptions ∧
    ∀ v r, v ≠ u →
      ((v, r) ∈ (favoriteAction db u rid m).2.favorites ↔
        (v, r) ∈ db.favorites) := by
  cases hf : db.recipes.find? (fun r => decide (r.id = rid)) with
  | none => simp [favoriteAction, hf]
  | some r0 =>
    cases m with
    | post =>
      by_cases hmem : (u, rid) ∈ db.favorites
      · simp [favoriteAction, hf, hmem]
      · simp only [favoriteAction, hf, hmem, if_false]
        refine ⟨trivial, trivial, trivial, trivial, trivial, trivial, trivial,
          fun v r hv => ?_⟩
        simp only [List.mem_append, List.mem_singleton, Prod.mk.injEq]
        constructor
        · rintro (h | ⟨hvu, -⟩)
          · exact h
          · exact absurd hvu hv
        · exact fun h => Or.inl h
    | delete =>
      by_cases hmem : (u, rid) ∈ db.favorites
      · simp only [favoriteAction, hf, hmem, if_true]
        refine ⟨trivial, trivial, trivial, trivial, trivial, trivial, trivial,
          fun v r hv => ?_⟩
        rw [List.mem_filter]
        constructor
        · exact fun h => h.1
        · intro h
          refine ⟨h, ?_⟩
          exact decide_eq_true (fun hc : (v, r) = (u, rid) =>
            hv (congrArg Prod.fst hc))
      · simp [favoriteAction, hf, hmem]

/-- `shopping_cart` touches only the `ShoppingCart` table, and only rows of
the acting user. -/
lemma shoppingCartAction_frame (db : DB) (u rid : Nat) (m : Method) :
    (shoppingCartAction db u rid m).2.users = db.users ∧
    (shoppingCartAction db u rid m).2.tags = db.tags ∧
    (shoppingCartAction db u rid m).2.ingredients = db.ingredients ∧
    (shoppingCartAction db u rid m).2.recipes = db.recipes ∧
    (shoppingCartAction db u rid m).2.ingredientinrecipe
      = db.ingredientinrecipe ∧
    (shoppingCartAction db u rid m).2.favorites = db.favorites ∧
    (shoppingCartAction db u rid m).2.subscriptions = db.subscriptions ∧
    ∀ v r, v ≠ u →
      ((v, r) ∈ (shoppingCartAction db u rid m).2.shopping_cart ↔
        (v, r) ∈ db.shopping_cart) := by
  cases hf : db.recipes.find? (fun r => decide (r.id = rid)) with
  | none => simp [shoppingCartAction, hf]
  | some r0 =>
    cases m with
    | post =>
      by_cases hmem : (u, rid) ∈ db.shopping_cart
      · simp [shoppingCartAction, hf, hmem]
      · simp only [shoppingCartAction, hf, hmem, if_false]
        refine ⟨trivial, trivial, trivial, trivial, trivial, trivial, trivial,
          fun v r hv => ?_⟩
        simp only [List.mem_append, List.mem_singleton, Prod.mk.injEq]
        constructor
        · rintro (h | ⟨hvu, -⟩)
          · exact h
          · exact absurd hvu hv
        · exact fun h => Or.inl h
    | delete =>
      by_cases hmem : (u, rid) ∈ db.shopping_cart
      · simp only [shoppingCartAction, hf, hmem, if_true]
        refine ⟨trivial, trivial, trivial, trivial, trivial, trivial, trivial,
          fun v r hv => ?_⟩
        rw [List.mem_filter]
        constructor
        · exact fun h => h.1
        · intro h
          refine ⟨h, ?_⟩
          exact decide_eq_true (fun hc : (v, r) = (u, rid) =>
            hv (congrArg Prod.fst hc))
      · simp [shoppingCartAction, hf, hmem]

/-- `subscribe` touches only the `Subscription` table, and only rows of the
acting user. -/
lemma subscribeAction_frame (db : DB) (u target : Nat) (m : Method) :
    (subscribeAction db u target m).2.users = db.users ∧
    (subscribeAction db u target m).2.tags = db.tags ∧
    (subscribeAction db u target m).2.ingredients = db.ingredients ∧
    (subscribeAction db u target m).2.recipes = db.recipes ∧
    (subscribeAction db u target m).2.ingredientinrecipe
      = db.ingredientinrecipe ∧
    (subscribeAction db u target m).2.favorites = db.favorites ∧
    (subscribeAction db u target m).2.shopping_cart = db.shopping_cart ∧
    ∀ v a, v ≠ u →
      ((v, a) ∈ (subscribeAction db u target m).2.subscriptions ↔
        (v, a) ∈ db.subscriptions) := by
  by_cases hu : target ∈ db.users
  · by_cases hself : target = u
    · subst hself
      simp [subscribeAction, hu]
    · cases m with
      | post =>
        by_cases hmem : (u, target) ∈ db.subscriptions
        · simp [subscribeAction, hu, hself, hmem]
        · simp only [subscribeAction]
          rw [if_pos hu, if_neg hself, if_neg hmem]
          refine ⟨?_, ?_, ?_, ?_, ?_, ?_, ?_, fun v a hv => ?_⟩ <;> try rfl
          simp only [List.mem_append, List.mem_singleton, Prod.mk.injEq]
          constructor
          · rintro (h | ⟨hvu, -⟩)
            · exact h
            · exact absurd hvu hv
          · exact fun h => Or.inl h
      | delete =>
        by_cases hmem : (u, target) ∈ db.subscriptions
        · simp only [subscribeAction]
          rw [if_pos hu, if_neg hself, if_pos hmem]
          refine ⟨?_, ?_, ?_, ?_, ?_, ?_, ?_, fun v a hv => ?_⟩ <;> try rfl
          rw [List.mem_filter]
          constructor
          · exact fun h => h.1
          · intro h
            refine ⟨h, ?_⟩
            exact decide_eq_true (fun hc : (v, a) = (u, target) =>
              hv (congrArg Prod.fst hc))
        · simp [subscribeAction, hu, hself, hmem]
  · simp [subscribeAction, hu]

/-- The projection depends only on the recipe, tag, ingredient and join-row
tables, and on the viewer's own rows of the two flag tables. -/
lemma projectRecipe_congr (dbA dbB : DB) (viewer : Option Nat)
    (hrec : dbA.recipes = dbB.recipes) (htag : dbA.tags = dbB.tags)
    (hing : dbA.ingredients = dbB.ingredients)
    (hiir : dbA.ingredientinrecipe = dbB.ingredientinrecipe)
    (hfav : ∀ u r, viewer = some u →
      ((u, r) ∈ dbA.favorites ↔ (u, r) ∈ dbB.favorites))
    (hcart : ∀ u r, viewer = some u →
      ((u, r) ∈ dbA.shopping_cart ↔ (u, r) ∈ dbB.shopping_cart))
    (rid : Nat) : projectRecipe dbA viewer rid = projectRecipe dbB viewer rid := by
  unfold projectRecipe
  rw [hrec, htag, hing, hiir]
  cases hf : dbB.recipes.find? (fun r => r.id = rid) with
  | none => rfl
  | some r =>
    cases viewer with
    | none => rfl
    | some u =>
      simp only [Option.map_some', Option.some.injEq, RecipeView.mk.injEq,
        eq_self_iff_true, true_and, and_true, decide_eq_decide]
      exact ⟨hfav u r.id rfl, hcart u r.id rfl⟩

/-! ## Concrete sample state, used by the witnesses -/

def sampleDB : DB :=
  { users := [10, 11]
    tags := [⟨1, "breakfast", "bfast"⟩, ⟨2, "dinner", "din"⟩]
    ingredients := [⟨1, "eggs", "pcs"⟩, ⟨2, "milk", "l"⟩]
    recipes := [⟨1, 10, "omelette", "img", "txt", 5, [1]⟩]
    ingredientinrecipe := [⟨1, 1, 2⟩]
    favorites := []
    shopping_cart := []
    subscriptions := [] }

/-! ## C4: toggle contract for favorites and shopping cart -/

/-- C4: for every (user, recipe) with the recipe present, `add` fails with
Conflict (the duplicate-row 400) when a join row already exists and otherwise
creates exactly one row; `remove` fails with NotFound (the missing-row 400)
when no row exists and otherwise deletes exactly that one row; hence a second
`add` fails with Conflict and a second `remove` fails with NotFound, with no
double-application. Stated for both the `Favorite` and the `ShoppingCart`
toggle. -/
theorem favorite_cart_toggle_contract (db : DB) (u rid : Nat)
    (hrec : rid ∈ db.recipes.map Recipe.id)
    (hfav : db.favorites.Nodup) (hcart : db.shopping_cart.Nodup) :
    (((u, rid) ∈ db.favorites →
        favoriteAction db u rid .post = (.alreadyExists, db)) ∧
     ((u, rid) ∉ db.favorites →
        favoriteAction db u rid .post =
          (.created, { db with favorites := db.favorites ++ [(u, rid)] })) ∧
     ((u, rid) ∉ db.favorites →
        favoriteAction db u rid .delete = (.relMissing, db)) ∧
     ((u, rid) ∈ db.favorites →
        favoriteAction db u rid .delete =
          (.noContent,
            { db with favorites :=
                db.favorites.filter (fun p => p ≠ (u, rid)) }) ∧
        (db.favorites.filter (fun p => p ≠ (u, rid))).length + 1
          = db.favorites.length ∧
        (u, rid) ∉ db.favorites.filter (fun p => p ≠ (u, rid)) ∧
        ∀ q ∈ db.favorites, q ≠ (u, rid) →
          q ∈ db.favorites.filter (fun p => p ≠ (u, rid))) ∧
     ((u, rid) ∉ db.favorites →
        (favoriteAction (favoriteAction db u rid .post).2 u rid .post).1 =
          .alreadyExists) ∧
     ((u, rid) ∈ db.favorites →
        (favoriteAction (favoriteAction db u rid .delete).2 u rid .delete).1 =
          .relMissing)) ∧
    (((u, rid) ∈ db.shopping_cart →
        shoppingCartAction db u rid .post = (.alreadyExists, db)) ∧
     ((u, rid) ∉ db.shopping_cart →
        shoppingCartAction db u rid .post =
          (.created,
            { db with shopping_cart := db.shopping_cart ++ [(u, rid)] })) ∧
     ((u, rid) ∉ db.shopping_cart →
        shoppingCartAction db u rid .delete = (.relMissing, db)) ∧
     ((u, rid) ∈ db.shopping_cart →
        shoppingCartAction db u rid .delete =
          (.noContent,
            { db with shopping_cart :=
                db.shopping_cart.filter (fun p => p ≠ (u, rid)) }) ∧
        (db.shopping_cart.filter (fun p => p ≠ (u, rid))).length + 1
          = db.shopping_cart.length ∧
        (u, rid) ∉ db.shopping_cart.filter (fun p => p ≠ (u, rid)) ∧
        ∀ q ∈ db.shopping_cart, q ≠ (u, rid) →
          q ∈ db.shopping_cart.filter (fun p => p ≠ (u, rid))) ∧
     ((u, rid) ∉ db.shopping_cart →
        (shoppingCartAction (shoppingCartAction db u rid .post).2 u rid
          .post).1 = .alreadyExists) ∧
     ((u, rid) ∈ db.shopping_cart →
        (shoppingCartAction (shoppingCartAction db u rid .delete).2 u rid
          .delete).1 = .relMissing)) := by
  have hf : ∃ r0, db.recipes.find? (fun r => decide (r.id = rid)) = some r0 := by
    rw [← Option.isSome_iff_exists, List.find?_isSome]
    rcases List.mem_map.mp hrec with ⟨r0, hr0, hid⟩
    exact ⟨r0, hr0, decide_eq_true hid⟩
  obtain ⟨r0, hf⟩ := hf
  constructor
  · refine ⟨fun h => ?_, fun h => ?_, fun h => ?_, fun h => ?_, fun h => ?_,
      fun h => ?_⟩
    · simp [favoriteAction, hf, h]
    · simp [favoriteAction, hf, h]
    · simp [favoriteAction, hf, h]
    · refine ⟨by simp [favoriteAction, hf, h],
        length_filter_ne db.favorites (u, rid) hfav h, ?_, ?_⟩
      · intro hc
        have := (List.mem_filter.mp hc).2
        simp at this
      · intro q hq hne
        exact List.mem_filter.mpr ⟨hq, decide_eq_true hne⟩
    · have h1 : favoriteAction db u rid .post =
          (.created, { db with favorites := db.favorites ++ [(u, rid)] }) := by
        simp [favoriteAction, hf, h]
      rw [h1]
      simp [favoriteAction, hf]
    · have h1 : favoriteAction db u rid .delete =
          (.noContent,
            { db with favorites :=
                db.favorites.filter (fun p => p ≠ (u, rid)) }) := by
        simp [favoriteAction, hf, h]
      rw [h1]
      simp [favoriteAction, hf, List.mem_filter]
  · refine ⟨fun h => ?_, fun h => ?_, fun h => ?_, fun h => ?_, fun h => ?_,
      fun h => ?_⟩
    · simp [shoppingCartAction, hf, h]
    · simp [shoppingCartAction, hf, h]
    · simp [shoppingCartAction, hf, h]
    · refine ⟨by simp [shoppingCartAction, hf, h],
        length_filter_ne db.shopping_cart (u, rid) hcart h, ?_, ?_⟩
      · intro hc
        have := (List.mem_filter.mp hc).2
        simp at this
      · intro q hq hne
        exact List.mem_filter.mpr ⟨hq, decide_eq_true hne⟩
    · have h1 : shoppingCartAction db u rid .post =
          (.created,
            { db with shopping_cart := db.shopping_cart ++ [(u, rid)] }) := by
        simp [shoppingCartAction, hf, h]
      rw [h1]
      simp [shoppingCartAction, hf]
    · have h1 : shoppingCartAction db u rid .delete =
          (.noContent,
            { db with shopping_cart :=
                db.shopping_cart.filter (fun p => p ≠ (u, rid)) }) := by
        simp [shoppingCartAction, hf, h]
      rw [h1]
      simp [shoppingCartAction, hf, List.mem_filter]

/-- Witness for C4: on the sample state, adding recipe 1 to user 10's
favorites creates exactly the one new row. -/
theorem favorite_cart_toggle_contract_witness :
    favoriteAction sampleDB 10 1 .post =
      (.created, { sampleDB with favorites := sampleDB.favorites ++ [(10, 1)] }) :=
  (favorite_cart_toggle_contract sampleDB 10 1 (by decide) (by decide)
    (by decide)).1.2.1 (by decide)

/-! ## C8: self-subscription always rejected -/

/-- C8: for every existing user `u`, both the add and the remove direction of
`subscribe(u, u)` fail with the self-subscription 400, and the state — in
particular the `Subscription` table — is unchanged. -/
theorem self_subscribe_always_rejected (db : DB) (u : Nat) (hu : u ∈ db.users)
    (m : Method) : subscribeAction db u u m = (.selfSubscribe, db) := by
  simp [subscribeAction, hu]

/-- Witness for C8: user 10 of the sample state cannot subscribe to itself. -/
theorem self_subscribe_always_rejected_witness :
    subscribeAction sampleDB 10 10 .post = (.selfSubscribe, sampleDB) ∧
    subscribeAction sampleDB 10 10 .delete = (.selfSubscribe, sampleDB) :=
  ⟨self_subscribe_always_rejected sampleDB 10 (by decide) .post,
   self_subscribe_always_rejected sampleDB 10 (by decide) .delete⟩

/-! ## C10: toggle isolation between users -/

/-- C10: every favorite, shopping-cart or subscription toggle by user `u`,
whether it succeeds or fails, leaves every other user `v`'s join rows
unchanged and leaves every recipe projection for viewer `v` — including the
`is_favorited` and `is_in_shopping_cart` flags — unchanged. -/
theorem toggle_isolation (db : DB) (u rid target v : Nat) (m : Method)
    (hv : v ≠ u) :
    ((∀ r, ((v, r) ∈ (favoriteAction db u rid m).2.favorites ↔
        (v, r) ∈ db.favorites)) ∧
     (favoriteAction db u rid m).2.shopping_cart = db.shopping_cart ∧
     (favoriteAction db u rid m).2.subscriptions = db.subscriptions ∧
     (∀ r, projectRecipe (favoriteAction db u rid m).2 (some v) r =
        projectRecipe db (some v) r)) ∧
    ((∀ r, ((v, r) ∈ (shoppingCartAction db u rid m).2.shopping_cart ↔
        (v, r) ∈ db.shopping_cart)) ∧
     (shoppingCartAction db u rid m).2.favorites = db.favorites ∧
     (shoppingCartAction db u rid m).2.subscriptions = db.subscriptions ∧
     (∀ r, projectRecipe (shoppingCartAction db u rid m).2 (some v) r =
        projectRecipe db (some v) r)) ∧
    ((∀ a, ((v, a) ∈ (subscribeAction db u target m).2.subscriptions ↔
        (v, a) ∈ db.subscriptions)) ∧
     (subscribeAction db u target m).2.favorites = db.favorites ∧
     (subscribeAction db u target m).2.shopping_cart = db.shopping_cart ∧
     (∀ r, projectRecipe (subscribeAction db u target m).2 (some v) r =
        projectRecipe db (some v) r)) := by
  obtain ⟨-, htagF, hingF, hrecF, hiirF, hcartF, hsubF, hfavF⟩ :=
    favoriteAction_frame db u rid m
  obtain ⟨-, htagC, hingC, hrecC, hiirC, hfavC, hsubC, hcartC⟩ :=
    shoppingCartAction_frame db u rid m
  obtain ⟨-, htagS, hingS, hrecS, hiirS, hfavS, hcartS, hsubS⟩ :=
    subscribeAction_frame db u target m
  refine ⟨⟨fun r => hfavF v r hv, hcartF, hsubF, fun r => ?_⟩,
    ⟨fun r => hcartC v r hv, hfavC, hsubC, fun r => ?_⟩,
    ⟨fun a => hsubS v a hv, hfavS, hcartS, fun r => ?_⟩⟩
  · refine projectRecipe_congr _ db (some v) hrecF htagF hingF hiirF
      (fun u' x hu' => ?_) (fun u' x hu' => ?_) r
    · have hx := hfavF v x hv
      rw [Option.some.inj hu'] at hx
      exact hx
    · rw [hcartF]
  · refine projectRecipe_congr _ db (some v) hrecC htagC hingC hiirC
      (fun u' x hu' => ?_) (fun u' x hu' => ?_) r
    · rw [hfavC]
    · have hx := hcartC v x hv
      rw [Option.some.inj hu'] at hx
      exact hx
  · refine projectRecipe_congr _ db (some v) hrecS htagS hingS hiirS
      (fun u' x hu' => ?_) (fun u' x hu' => ?_) r
    · rw [hfavS]
    · rw [hcartS]

/-- Witness for C10: user 10 adding recipe 1 to favorites leaves user 11's
favorite rows and user 11's view of recipe 1 unchanged. -/
theorem toggle_isolation_witness :
    ((11, 1) ∈ (favoriteAction sampleDB 10 1 .post).2.favorites ↔
      (11, 1) ∈ sampleDB.favorites) ∧
    projectRecipe (favoriteAction sampleDB 10 1 .post).2 (some 11) 1 =
      projectRecipe sampleDB (some 11) 1 :=
  ⟨((toggle_isolation sampleDB 10 1 2 11 .post (by decide)).1.1) 1,
   ((toggle_isolation sampleDB 10 1 2 11 .post (by decide)).1.2.2.2) 1⟩

/-! ## Sorting and string lemmas for the aggregation -/

lemma mem_insertKey (k : String × String) :
    ∀ (l : List (String × String)) (a : String × String),
      a ∈ insertKey k l ↔ a = k ∨ a ∈ l
  | [], a => by simp [insertKey]
  | k' :: ks, a => by
    by_cases h : k.1.data ≤ k'.1.data
    · simp [insertKey, h, List.mem_cons]
    · simp only [insertKey, if_neg h, List.mem_cons, mem_insertKey k ks a]
      tauto

lemma insertKey_perm (k : String × String) :
    ∀ (l : List (String × String)), (insertKey k l).Perm (k :: l)
  | [] => List.Perm.refl _
  | k' :: ks => by
    by_cases h : k.1.data ≤ k'.1.data
    · simp [insertKey, h]
    · simp only [insertKey, if_neg h]
      exact ((insertKey_perm k ks).cons k').trans (List.Perm.swap k k' ks)

lemma sortKeys_perm : ∀ (l : List (String × String)), (sortKeys l).Perm l
  | [] => List.Perm.refl _
  | k :: ks => (insertKey_perm k (sortKeys ks)).trans ((sortKeys_perm ks).cons k)

lemma sorted_insertKey (k : String × String) :
    ∀ (l : List (String × String)),
      l.Sorted (fun a b => a.1.data ≤ b.1.data) →
      (insertKey k l).Sorted (fun a b => a.1.data ≤ b.1.data)
  | [], _ => by simp [insertKey]
  | k' :: ks, h => by
    rcases List.sorted_cons.mp h with ⟨hk', hks⟩
    by_cases hle : k.1.data ≤ k'.1.data
    · simp only [insertKey, if_pos hle]
      refine List.sorted_cons.mpr ⟨?_, h⟩
      intro b hb
      rcases List.mem_cons.mp hb with rfl | hb
      · exact hle
      · exact le_trans hle (hk' b hb)
    · simp only [insertKey, if_neg hle]
      refine List.sorted_cons.mpr ⟨?_, sorted_insertKey k ks hks⟩
      intro b hb
      rcases (mem_insertKey k ks b).mp hb with rfl | hb
      · exact le_of_not_le hle
      · exact hk' b hb

lemma sortKeys_sorted :
    ∀ (l : List (String × String)),
      (sortKeys l).Sorted (fun a b => a.1.data ≤ b.1.data)
  | [] => List.sorted_nil
  | k :: ks => sorted_insertKey k (sortKeys ks) (sortKeys_sorted ks)

lemma foldl_string_shift : ∀ (l : List String) (s : String),
    l.foldl (fun r t => r ++ t) s = s ++ l.foldl (fun r t => r ++ t) ""
  | [], s => (String.append_empty s).symm
  | x :: xs, s => by
    simp only [List.foldl_cons]
    rw [foldl_string_shift xs (s ++ x), foldl_string_shift xs ("" ++ x),
      String.empty_append, String.append_assoc]

lemma join_cons (s : String) (l : List String) :
    String.join (s :: l) = s ++ String.join l := by
  simp only [String.join, List.foldl_cons, String.empty_append]
  exact foldl_string_shift l s

lemma foldl_render {α : Type _} (f : α → String) :
    ∀ (l : List α) (acc : String),
      l.foldl (fun a x => a ++ f x) acc = acc ++ String.join (l.map f)
  | [], acc => by
    simp only [List.foldl_nil, List.map_nil]
    exact (String.append_empty acc).symm
  | x :: xs, acc => by
    simp only [List.foldl_cons, List.map_cons, join_cons]
    rw [foldl_render f xs (acc ++ f x), String.append_assoc]

/-- Every cart entry's (name, unit) comes from a catalog ingredient. -/
lemma cartEntries_key (db : DB) (u : Nat) :
    ∀ e ∈ cartEntries db u, ∃ i ∈ db.ingredients,
      e.1 = i.name ∧ e.2.1 = i.measurement_unit := by
  intro e he
  rcases List.mem_filterMap.mp he with ⟨row, hrow, hmap⟩
  rcases Option.map_eq_some'.mp hmap with ⟨i, hfind, hei⟩
  refine ⟨i, List.mem_of_find?_eq_some hfind, ?_, ?_⟩
  · rw [← hei]
  · rw [← hei]

/-! ## C7: shopping-list aggregation -/

/-- C7: for every user, `aggregate` yields exactly one row per distinct
ingredient name occurring in the user's cart, sorted alphabetically by name,
each row's total being the sum of `amount` over every cart row with that
ingredient name; the download body is the newline-delimited rendering of
those rows; and an empty cart yields an empty listing. -/
theorem shopping_list_aggregation (db : DB) (u : Nat)
    (hname : (db.ingredients.map Ingredient.name).Nodup) :
    ((aggregate db u).map (fun e => e.1)).Sorted (· ≤ ·) ∧
    ((aggregate db u).map (fun e => e.1)).Nodup ∧
    (∀ n, n ∈ (aggregate db u).map (fun e => e.1) ↔
      ∃ e ∈ cartEntries db u, e.1 = n) ∧
    (∀ t ∈ aggregate db u,
      t.2.2 = ((cartEntries db u).filter (fun e => e.1 = t.1)).foldl
        (fun s e => s + e.2.2) 0) ∧
    shoppingCartFile db u =
      String.join ((aggregate db u).map
        (fun e => e.1 ++ " - " ++ toString e.2.2 ++ " " ++ e.2.1 ++ "\n")) ∧
    ((∀ rid, (u, rid) ∉ db.shopping_cart) →
      aggregate db u = [] ∧ shoppingCartFile db u = "") := by
  have hkeysCat : ∀ k ∈ ((cartEntries db u).map (fun e => (e.1, e.2.1))).dedup,
      ∃ i ∈ db.ingredients, k.1 = i.name ∧ k.2 = i.measurement_unit := by
    intro k hk
    rcases List.mem_map.mp (List.mem_dedup.mp hk) with ⟨e, he, hek⟩
    rcases cartEntries_key db u e he with ⟨i, hi, h1, h2⟩
    exact ⟨i, hi, by rw [← hek]; exact h1, by rw [← hek]; exact h2⟩
  have hsorted := sortKeys_sorted ((cartEntries db u).map
    (fun e => (e.1, e.2.1))).dedup
  have hperm := sortKeys_perm ((cartEntries db u).map
    (fun e => (e.1, e.2.1))).dedup
  have hkeysSorted : ∀ k ∈ sortKeys ((cartEntries db u).map
      (fun e => (e.1, e.2.1))).dedup,
      ∃ i ∈ db.ingredients, k.1 = i.name ∧ k.2 = i.measurement_unit :=
    fun k hk => hkeysCat k (hperm.mem_iff.mp hk)
  have hinj : ∀ k1 ∈ sortKeys ((cartEntries db u).map
      (fun e => (e.1, e.2.1))).dedup,
      ∀ k2 ∈ sortKeys ((cartEntries db u).map (fun e => (e.1, e.2.1))).dedup,
      k1.1 = k2.1 → k1 = k2 := by
    intro k1 h1 k2 h2 heq
    rcases hkeysSorted k1 h1 with ⟨i1, hi1, hn1, hu1⟩
    rcases hkeysSorted k2 h2 with ⟨i2, hi2, hn2, hu2⟩
    have : i1 = i2 :=
      List.inj_on_of_nodup_map hname hi1 hi2 (by rw [← hn1, ← hn2, heq])
    refine Prod.ext heq ?_
    rw [hu1, hu2, this]
  have hagg : aggregate db u =
      (sortKeys ((cartEntries db u).map (fun e => (e.1, e.2.1))).dedup).map
        (fun k => (k.1, k.2,
          ((cartEntries db u).filter
              (fun e => e.1 = k.1 ∧ e.2.1 = k.2)).foldl
            (fun s e => s + e.2.2) 0)) := rfl
  refine ⟨?_, ?_, ?_, ?_, ?_, ?_⟩
  · rw [hagg, List.map_map]
    exact List.Pairwise.map _
      (fun a b h => String.le_iff_toList_le.mpr h) hsorted
  · rw [hagg, List.map_map]
    have hnd : (sortKeys ((cartEntries db u).map
        (fun e => (e.1, e.2.1))).dedup).Nodup :=
      hperm.nodup_iff.mpr (List.nodup_dedup _)
    exact List.Nodup.map_on
      (fun x hx y hy hxy => hinj x hx y hy hxy) hnd
  · intro n
    rw [hagg, List.map_map]
    constructor
    · intro hn
      rcases List.mem_map.mp hn with ⟨k, hk, hkn⟩
      rcases List.mem_map.mp (List.mem_dedup.mp (hperm.mem_iff.mp hk)) with
        ⟨e, he, hek⟩
      refine ⟨e, he, ?_⟩
      have : (e.1, e.2.1).1 = n := by rw [hek]; exact hkn
      exact this
    · rintro ⟨e, he, rfl⟩
      refine List.mem_map.mpr ⟨(e.1, e.2.1), ?_, rfl⟩
      exact hperm.mem_iff.mpr
        (List.mem_dedup.mpr (List.mem_map.mpr ⟨e, he, rfl⟩))
  · intro t ht
    rw [hagg] at ht
    rcases List.mem_map.mp ht with ⟨k, hk, hkt⟩
    subst hkt
    show ((cartEntries db u).filter
        (fun e => e.1 = k.1 ∧ e.2.1 = k.2)).foldl (fun s e => s + e.2.2) 0
      = ((cartEntries db u).filter (fun e => e.1 = k.1)).foldl
        (fun s e => s + e.2.2) 0
    congr 1
    refine List.filter_congr (fun e he => ?_)
    rcases hkeysSorted k hk with ⟨i, hi, hn1, hu1⟩
    rcases cartEntries_key db u e he with ⟨ie, hie, hne, hue⟩
    refine decide_eq_decide.mpr ⟨fun h => h.1, fun h => ⟨h, ?_⟩⟩
    have : ie = i := List.inj_on_of_nodup_map hname hie hi
      (by rw [← hne, ← hn1, h])
    rw [hue, hu1, this]
  · exact (foldl_render _ (aggregate db u) "").trans
      (String.empty_append _)
  · intro hEmpty
    have hcr : cartRows db u = [] := by
      refine List.filter_eq_nil_iff.mpr (fun row hrow => ?_)
      simp only [decide_eq_true_eq]
      exact hEmpty row.recipe
    have hce : cartEntries db u = [] := by
      unfold cartEntries
      rw [hcr]
      rfl
    have ha : aggregate db u = [] := by
      rw [hagg, hce]
      rfl
    refine ⟨ha, ?_⟩
    unfold shoppingCartFile
    rw [ha]
    rfl

/-- Concrete state for the spec's aggregation example: user 10's cart holds
recipe A (eggs ×2, milk ×1) and recipe B (eggs ×3). -/
def cartDB : DB :=
  { users := [10]
    tags := []
    ingredients := [⟨1, "eggs", "pcs"⟩, ⟨2, "milk", "l"⟩]
    recipes := [⟨1, 10, "A", "i", "t", 5, []⟩, ⟨2, 10, "B", "i", "t", 5, []⟩]
    ingredientinrecipe := [⟨1, 1, 2⟩, ⟨1, 2, 1⟩, ⟨2, 1, 3⟩]
    favorites := []
    shopping_cart := [(10, 1), (10, 2)]
    subscriptions := [] }

/-- Witness for C7: on the spec's example cart, the aggregation returns
eggs 5 pcs then milk 1 l, and its name column is sorted. -/
theorem shopping_list_aggregation_witness :
    aggregate cartDB 10 = [("eggs", "pcs", 5), ("milk", "l", 1)] ∧
    shoppingCartFile cartDB 10 = "eggs - 5 pcs\nmilk - 1 l\n" ∧
    ((aggregate cartDB 10).map (fun e => e.1)).Sorted (· ≤ ·) :=
  ⟨by rfl, by rfl, (shopping_list_aggregation cartDB 10 (by decide)).1⟩

/-! ## C9: recipe query filter composition -/

/-- The `is_favorited=1` AND-condition of the filter contract. -/
def favPred (db : DB) (viewer : Option Nat) (p : RecipeParams) (r : Recipe) :
    Bool :=
  match viewer with
  | some u =>
    if p.is_favorited = some "1" then decide ((u, r.id) ∈ db.favorites)
    else true
  | none => true

/-- The `is_in_shopping_cart=1` AND-condition of the filter contract. -/
def cartPred (db : DB) (viewer : Option Nat) (p : RecipeParams) (r : Recipe) :
    Bool :=
  match viewer with
  | some u =>
    if p.is_in_shopping_cart = some "1" then
      decide ((u, r.id) ∈ db.shopping_cart)
    else true
  | none => true

/-- The `author=<id>` AND-condition of the filter contract. -/
def authorPred (p : RecipeParams) (r : Recipe) : Bool :=
  match p.author with
  | some a => decide (r.author = a)
  | none => true

/-- The `tags=<slug>` AND-condition of the filter contract: vacuous when no
slug is supplied, otherwise at least one of the recipe's tag slugs matches. -/
def tagsPred (db : DB) (p : RecipeParams) (r : Recipe) : Bool :=
  p.tags.isEmpty || (recipeTagSlugs db r).any (fun s => s ∈ p.tags)

/-- Appending a block of copies of `r` in front of a list not containing `r`,
then deduplicating: the block contributes `r` exactly when it is non-empty. -/
lemma dedup_const_block {α β : Type _} [DecidableEq α] (r : α) :
    ∀ (xs : List β) (rest : List α), r ∉ rest →
      ((xs.map (fun _ => r)) ++ rest).dedup =
        if xs.isEmpty then rest.dedup else r :: rest.dedup
  | [], rest, _ => by simp
  | [x], rest, hnr => by
    simp only [List.map_cons, List.map_nil, List.singleton_append,
      List.isEmpty_cons, if_false]
    exact List.dedup_cons_of_not_mem hnr
  | x :: y :: ys, rest, hnr => by
    simp only [List.map_cons, List.cons_append]
    rw [List.dedup_cons_of_mem (List.mem_cons_self r _),
      ← List.cons_append, ← List.map_cons (fun _ => r) y ys,
      dedup_const_block r (y :: ys) rest hnr]
    rfl

/-- `filter(tags__slug__in=slugs).distinct()` on a duplicate-free queryset is
plain predicate filtering: the join duplicates a recipe once per matching tag
and `distinct()` collapses them. -/
lemma tagsJoinFilter_eq_filter (db : DB) (slugs : List String) :
    ∀ (q : List Recipe), q.Nodup →
      tagsJoinFilter db q slugs =
        q.filter (fun r => (recipeTagSlugs db r).any (fun s => s ∈ slugs))
  | [], _ => rfl
  | r :: q, hnd => by
    rcases List.nodup_cons.mp hnd with ⟨hr, hq⟩
    have hnotin : r ∉ (q.flatMap (fun r' =>
        ((recipeTagSlugs db r').filter (fun s => s ∈ slugs)).map
          (fun _ => r'))).dedup := by
      intro hmem
      rcases List.mem_flatMap.mp (List.mem_dedup.mp hmem) with ⟨r', hr', hin⟩
      rcases List.mem_map.mp hin with ⟨-, -, rfl⟩
      exact hr hr'
    have hnotin' : r ∉ q.flatMap (fun r' =>
        ((recipeTagSlugs db r').filter (fun s => s ∈ slugs)).map
          (fun _ => r')) := fun h => hnotin (List.mem_dedup.mpr h)
    show ((((recipeTagSlugs db r).filter (fun s => s ∈ slugs)).map
        (fun _ => r)) ++ q.flatMap (fun r' =>
          ((recipeTagSlugs db r').filter (fun s => s ∈ slugs)).map
            (fun _ => r'))).dedup = _
    rw [dedup_const_block r _ _ hnotin']
    by_cases hb : ((recipeTagSlugs db r).filter (fun s => s ∈ slugs)).isEmpty
    · rw [if_pos hb]
      have hany : ((recipeTagSlugs db r).any (fun s => s ∈ slugs)) = false := by
        have hall := List.filter_eq_nil_iff.mp (List.isEmpty_iff.mp hb)
        refine Bool.eq_false_iff.mpr (fun hcontra => ?_)
        rcases List.any_eq_true.mp hcontra with ⟨s, hs, hsl⟩
        exact (hall s hs) hsl
      rw [List.filter_cons_of_neg (by rw [hany]; exact Bool.false_ne_true)]
      exact tagsJoinFilter_eq_filter db slugs q hq
    · rw [if_neg hb]
      have hany : ((recipeTagSlugs db r).any (fun s => s ∈ slugs)) = true := by
        rcases List.exists_mem_of_ne_nil _
          (fun h => hb (List.isEmpty_iff.mpr h)) with ⟨s, hs⟩
        rcases List.mem_filter.mp hs with ⟨hsl, hmem⟩
        exact List.any_eq_true.mpr ⟨s, hsl, hmem⟩
      rw [List.filter_cons_of_pos (by rw [hany])]
      exact congrArg (fun l => r :: l)
        (tagsJoinFilter_eq_filter db slugs q hq)

/-- The `is_favorited` narrowing step of `get_queryset`, as a filter. -/
lemma favStage (db : DB) (viewer : Option Nat) (p : RecipeParams)
    (q : List Recipe) :
    (match viewer with
      | some u =>
        if p.is_favorited = some "1" then
          q.filter (fun r => (u, r.id) ∈ db.favorites)
        else q
      | none => q) = q.filter (favPred db viewer p) := by
  cases viewer with
  | none => exact (List.filter_true q).symm
  | some u =>
    dsimp only
    by_cases h : p.is_favorited = some "1"
    · rw [if_pos h]
      exact List.filter_congr (fun r _ => by simp [favPred, h])
    · rw [if_neg h]
      exact (List.filter_eq_self.mpr (fun r _ => by simp [favPred, h])).symm

/-- The `is_in_shopping_cart` narrowing step of `get_queryset`, as a filter. -/
lemma cartStage (db : DB) (viewer : Option Nat) (p : RecipeParams)
    (q : List Recipe) :
    (match viewer with
      | some u =>
        if p.is_in_shopping_cart = some "1" then
          q.filter (fun r => (u, r.id) ∈ db.shopping_cart)
        else q
      | none => q) = q.filter (cartPred db viewer p) := by
  cases viewer with
  | none => exact (List.filter_true q).symm
  | some u =>
    dsimp only
    by_cases h : p.is_in_shopping_cart = some "1"
    · rw [if_pos h]
      exact List.filter_congr (fun r _ => by simp [cartPred, h])
    · rw [if_neg h]
      exact (List.filter_eq_self.mpr (fun r _ => by simp [cartPred, h])).symm

/-- The `author` narrowing step of `get_queryset`, as a filter. -/
lemma authorStage (p : RecipeParams) (q : List Recipe) :
    (match p.author with
      | some a => q.filter (fun r => r.author = a)
      | none => q) = q.filter (authorPred p) := by
  cases ha : p.author with
  | none =>
    dsimp only
    exact (List.filter_eq_self.mpr (fun r _ => by simp [authorPred, ha])).symm
  | some a =>
    dsimp only
    exact List.filter_congr (fun r _ => by simp [authorPred, ha])

/-- C9: the recipe list filter is the conjunction of four independent
AND-conditions — `is_favorited=1` against the viewer's favorites (vacuous for
an unauthenticated viewer), `is_in_shopping_cart=1` against the cart,
`author=<id>`, and repeatable `tags=<slug>` with join duplicates removed — so
the conditions commute; in particular `is_favorited=1` plus one tag slug
returns exactly the intersection of the viewer's favorites and the recipes
carrying that slug. -/
theorem recipe_filter_composition (db : DB) (viewer : Option Nat)
    (p : RecipeParams) (hnd : db.recipes.Nodup) :
    get_queryset db viewer p = db.recipes.filter
      (fun r => favPred db viewer p r && cartPred db viewer p r &&
        authorPred p r && tagsPred db p r) ∧
    (∀ v x, get_queryset db (some v)
        { is_favorited := some "1", is_in_shopping_cart := none,
          author := none, tags := [x] } =
      db.recipes.filter (fun r =>
        decide ((v, r.id) ∈ db.favorites) &&
        (recipeTagSlugs db r).any (fun s => s ∈ [x]))) := by
  have main : ∀ (viewer' : Option Nat) (p' : RecipeParams),
      get_queryset db viewer' p' = db.recipes.filter
        (fun r => favPred db viewer' p' r && cartPred db viewer' p' r &&
          authorPred p' r && tagsPred db p' r) := by
    intro viewer' p'
    show (if p'.tags.isEmpty then _ else _) = _
    rw [favStage db viewer' p' db.recipes, cartStage, authorStage,
      List.filter_filter, List.filter_filter]
    by_cases ht : p'.tags.isEmpty
    · rw [if_pos ht]
      refine List.filter_congr (fun r _ => ?_)
      simp only [tagsPred, ht, Bool.true_or, Bool.and_true]
      cases favPred db viewer' p' r <;> cases cartPred db viewer' p' r <;>
        cases authorPred p' r <;> rfl
    · rw [if_neg ht]
      rw [tagsJoinFilter_eq_filter db p'.tags _
        (List.Nodup.filter _ hnd), List.filter_filter]
      refine List.filter_congr (fun r _ => ?_)
      simp only [tagsPred, Bool.eq_false_iff.mpr ht, Bool.false_or]
      cases favPred db viewer' p' r <;> cases cartPred db viewer' p' r <;>
        cases authorPred p' r <;>
        cases (recipeTagSlugs db r).any (fun s => s ∈ p'.tags) <;> rfl
  refine ⟨main viewer p, fun v x => ?_⟩
  rw [main (some v)
    { is_favorited := some "1", is_in_shopping_cart := none,
      author := none, tags := [x] }]
  refine List.filter_congr (fun r _ => ?_)
  simp only [favPred, cartPred, authorPred, tagsPred]
  cases hf : decide ((v, r.id) ∈ db.favorites) <;>
    cases (recipeTagSlugs db r).any (fun s => s ∈ [x]) <;> rfl

/-- Concrete state for the C9 witness: user 10 favorited recipes 1 and 3;
recipes 1 and 3 carry the `bfast` tag. -/
def filterDB : DB :=
  { users := [10, 11]
    tags := [⟨1, "breakfast", "bfast"⟩, ⟨2, "dinner", "din"⟩]
    ingredients := []
    recipes := [⟨1, 10, "a", "i", "t", 5, [1]⟩, ⟨2, 10, "b", "i", "t", 5, [2]⟩,
      ⟨3, 11, "c", "i", "t", 5, [1, 2]⟩]
    ingredientinrecipe := []
    favorites := [(10, 1), (10, 3)]
    shopping_cart := []
    subscriptions := [] }

/-- Witness for C9: on the sample state, `is_favorited=1` plus the `bfast`
slug returns exactly recipes 1 and 3, the intersection of user 10's favorites
and the recipes tagged `bfast`. -/
theorem recipe_filter_composition_witness :
    get_queryset filterDB (some 10)
        { is_favorited := some "1", is_in_shopping_cart := none,
          author := none, tags := ["bfast"] } =
      filterDB.recipes.filter (fun r =>
        decide ((10, r.id) ∈ filterDB.favorites) &&
        (recipeTagSlugs filterDB r).any (fun s => s ∈ ["bfast"])) ∧
    (get_queryset filterDB (some 10)
        { is_favorited := some "1", is_in_shopping_cart := none,
          author := none, tags := ["bfast"] }).map Recipe.id = [1, 3] :=
  ⟨(recipe_filter_composition filterDB (some 10)
      { is_favorited := none, is_in_shopping_cart := none,
        author := none, tags := [] } (by decide)).2 10 "bfast",
   by rfl⟩

/-! ## Validity predicates and stage-evaluation lemmas for the write
pipeline -/

/-- One raw ingredient entry passes the field stage: id present and
resolvable, amount present and ≥ 1. -/
def entryOK (db : DB) (e : RawIngredientEntry) : Bool :=
  (match e.id with
   | some i => (db.ingredients.find? (fun x => x.id = i)).isSome
   | none => false) &&
  (match e.amount with
   | some a => decide (1 ≤ a)
   | none => false)

/-- The tags field passes the field stage: supplied, resolvable, non-empty,
no repeated names among the resolved tags. -/
def tagsOK (db : DB) (tags? : Option (List Nat)) : Bool :=
  match tags? with
  | none => false
  | some ids =>
    match resolveTags db ids with
    | none => false
    | some ts => !ts.isEmpty && decide ((ts.map Tag.name).Nodup)

/-- All the validation conditions of the write contract at once: tags ok;
ingredients supplied, non-empty, every entry ok, no repeated ids;
cooking_time ≥ 1. -/
def validInput (db : DB) (inp : RecipeInput) : Bool :=
  tagsOK db inp.tags &&
  (match inp.ingredients with
   | none => false
   | some es =>
     !es.isEmpty && es.all (entryOK db) &&
       decide ((es.map RawIngredientEntry.id).Nodup)) &&
  decide (1 ≤ inp.cooking_time)

/-- The (ingredient, amount) pair a clean entry resolves to. -/
def resolveEntry (db : DB) (e : RawIngredientEntry) :
    Option (Ingredient × Int) :=
  match e.id, e.amount with
  | some i, some a =>
    (db.ingredients.find? (fun x => x.id = i)).map (fun ing => (ing, a))
  | _, _ => none

lemma tagsFieldStage_resolve_none (db : DB) (patch : Bool) (ids : List Nat)
    (h : resolveTags db ids = none) :
    tagsFieldStage db patch (some ids) = ([.doesNotExist], none) := by
  unfold tagsFieldStage
  dsimp only
  rw [h]

lemma tagsFieldStage_empty (db : DB) (patch : Bool) (ids : List Nat)
    (ts : List Tag) (h : resolveTags db ids = some ts)
    (he : ts.isEmpty = true) :
    tagsFieldStage db patch (some ids) = ([.tagsEmpty], none) := by
  unfold tagsFieldStage
  dsimp only
  rw [h]
  simp [he]

lemma tagsFieldStage_dup (db : DB) (patch : Bool) (ids : List Nat)
    (ts : List Tag) (h : resolveTags db ids = some ts)
    (he : ts.isEmpty = false) (hnd : ¬(ts.map Tag.name).Nodup) :
    tagsFieldStage db patch (some ids) = ([.tagsDuplicate], none) := by
  unfold tagsFieldStage
  dsimp only
  rw [h]
  simp [he, hnd]

lemma tagsFieldStage_clean (db : DB) (patch : Bool) (ids : List Nat)
    (ts : List Tag) (h : resolveTags db ids = some ts)
    (he : ts.isEmpty = false) (hnd : (ts.map Tag.name).Nodup) :
    tagsFieldStage db patch (some ids) = ([], some ts) := by
  unfold tagsFieldStage
  dsimp only
  rw [h]
  simp [he, hnd]

/-- A clean tags field stage is exactly `tagsOK` (non-partial mode). -/
lemma tagsFieldStage_clean_iff (db : DB) (tags? : Option (List Nat)) :
    (tagsFieldStage db false tags?).1 = [] ↔ tagsOK db tags? = true := by
  cases tags? with
  | none => simp [tagsFieldStage, tagsOK]
  | some ids =>
    cases hrt : resolveTags db ids with
    | none => simp [tagsFieldStage_resolve_none db false ids hrt, tagsOK, hrt]
    | some ts =>
      cases he : ts.isEmpty
      · by_cases hnd : (ts.map Tag.name).Nodup
        · simp [tagsFieldStage_clean db false ids ts hrt he hnd, tagsOK, hrt,
            he, hnd]
        · simp [tagsFieldStage_dup db false ids ts hrt he hnd, tagsOK, hrt,
            he, hnd]
      · simp [tagsFieldStage_empty db false ids ts hrt he, tagsOK, hrt, he]

/-- A clean entry stage is exactly `entryOK`, and then the entry resolves. -/
lemma entryFieldStage_clean (db : DB) (e : RawIngredientEntry)
    (h : entryOK db e = true) :
    entryFieldStage db e = ([], resolveEntry db e) ∧
    (resolveEntry db e).isSome = true := by
  rcases Bool.and_eq_true_iff.mp h with ⟨hid, ham⟩
  rcases e with ⟨eid, eam⟩
  cases eid with
  | none => exact absurd hid (by simp)
  | some i =>
    cases eam with
    | none => exact absurd ham (by simp)
    | some a =>
      simp only at hid ham
      cases hfind : db.ingredients.find? (fun x => x.id = i) with
      | none => rw [hfind] at hid; exact absurd hid (by simp)
      | some ing =>
        have hpos : 1 ≤ a := of_decide_eq_true ham
        constructor
        · unfold entryFieldStage resolveEntry
          dsimp only
          rw [hfind]
          simp only [if_neg (by omega : ¬a ≤ 0)]
          rfl
        · unfold resolveEntry
          dsimp only
          rw [hfind]
          rfl

/-- An unclean entry produces at least one error. -/
lemma entryFieldStage_unclean (db : DB) (e : RawIngredientEntry)
    (h : entryOK db e = false) : (entryFieldStage db e).1 ≠ [] := by
  rcases e with ⟨eid, eam⟩
  cases eid with
  | none =>
    cases eam with
    | none => simp [entryFieldStage]
    | some a =>
      by_cases ha : a ≤ 0 <;> simp [entryFieldStage, ha]
  | some i =>
    cases hfind : db.ingredients.find? (fun x => x.id = i) with
    | none =>
      cases eam with
      | none => simp [entryFieldStage, hfind]
      | some a =>
        by_cases ha : a ≤ 0 <;> simp [entryFieldStage, hfind, ha]
    | some ing =>
      cases eam with
      | none => simp [entryFieldStage, hfind]
      | some a =>
        have : ¬(1 ≤ a) := by
          simp only [entryOK, hfind] at h
          simpa using h
        simp [entryFieldStage, hfind, if_pos (by omega : a ≤ 0)]

/-- With every entry clean, the many-serializer stage succeeds and resolves
the entries in order. -/
lemma ingredientsFieldStage_clean (db : DB) (patch : Bool)
    (es : List RawIngredientEntry) (hall : es.all (entryOK db) = true) :
    ingredientsFieldStage db patch (some es)
      = ([], some (es.filterMap (resolveEntry db))) := by
  have hclean : ∀ e ∈ es, entryFieldStage db e = ([], resolveEntry db e) :=
    fun e he =>
      (entryFieldStage_clean db e (List.all_eq_true.mp hall e he)).1
  unfold ingredientsFieldStage
  dsimp only
  rw [if_pos]
  · congr 1
    rw [List.filterMap_map]
    induction es with
    | nil => rfl
    | cons e es' ih =>
      have he : entryFieldStage db e = ([], resolveEntry db e) :=
        hclean e (List.mem_cons_self e es')
      have ih' := ih
        (by
          rcases List.all_eq_true.mp hall with h
          exact List.all_eq_true.mpr
            (fun x hx => h x (List.mem_cons_of_mem e hx)))
        (fun x hx => hclean x (List.mem_cons_of_mem e hx))
      simp only [List.filterMap_cons, Function.comp_apply, he]
      cases hre : resolveEntry db e with
      | none => exact ih'
      | some p => exact congrArg (fun l => some (p :: l)) (Option.some.inj ih')
  · rw [List.all_eq_true]
    intro r hr
    rcases List.mem_map.mp hr with ⟨e, he, rfl⟩
    rw [hclean e he]
    rfl

/-- With some entry unclean, the many-serializer stage collects every
entry's errors and reports them. -/
lemma ingredientsFieldStage_unclean (db : DB) (patch : Bool)
    (es : List RawIngredientEntry) (hall : es.all (entryOK db) = false) :
    (ingredientsFieldStage db patch (some es)).1
      = (es.map (entryFieldStage db)).flatMap (fun r => r.1) ∧
    (ingredientsFieldStage db patch (some es)).1 ≠ [] ∧
    (ingredientsFieldStage db patch (some es)).2 = none := by
  rcases List.all_eq_false.mp hall with ⟨e, he, hbad⟩
  have hne : (entryFieldStage db e).1 ≠ [] :=
    entryFieldStage_unclean db e (Bool.eq_false_iff.mpr hbad)
  have hnotall : ((es.map (entryFieldStage db)).all
      (fun r => r.1.isEmpty)) = false := by
    refine Bool.eq_false_iff.mpr (fun hcontra => ?_)
    have := List.all_eq_true.mp hcontra (entryFieldStage db e)
      (List.mem_map.mpr ⟨e, he, rfl⟩)
    exact hne (List.isEmpty_iff.mp this)
  unfold ingredientsFieldStage
  dsimp only
  rw [if_neg (by rw [hnotall]; exact Bool.false_ne_true)]
  refine ⟨rfl, ?_, rfl⟩
  intro hcontra
  have : (entryFieldStage db e).1 = [] := by
    have hsub : (entryFieldStage db e).1 ⊆ (es.map
        (entryFieldStage db)).flatMap (fun r => r.1) := by
      intro x hx
      exact List.mem_flatMap.mpr
        ⟨entryFieldStage db e, List.mem_map.mpr ⟨e, he, rfl⟩, hx⟩
    rcases hl : (entryFieldStage db e).1 with _ | ⟨x, xs⟩
    · rfl
    · have : x ∈ ([] : List VErr) := by
        rw [← hcontra]
        exact hsub (by rw [hl]; exact List.mem_cons_self x xs)
      exact absurd this (List.not_mem_nil x)
  exact hne this

lemma resolveEntry_of_ok (db : DB) (e : RawIngredientEntry)
    (h : entryOK db e = true) :
    ∃ i a ing, e.id = some i ∧ e.amount = some a ∧ 1 ≤ a ∧
      db.ingredients.find? (fun x => x.id = i) = some ing ∧ ing.id = i ∧
      ing ∈ db.ingredients ∧ resolveEntry db e = some (ing, a) := by
  rcases Bool.and_eq_true_iff.mp h with ⟨hid, ham⟩
  rcases e with ⟨eid, eam⟩
  cases eid with
  | none => exact absurd hid (by simp)
  | some i =>
    cases eam with
    | none => exact absurd ham (by simp)
    | some a =>
      simp only at hid ham
      cases hfind : db.ingredients.find? (fun x => x.id = i) with
      | none => rw [hfind] at hid; exact absurd hid (by simp)
      | some ing =>
        refine ⟨i, a, ing, rfl, rfl, of_decide_eq_true ham, hfind,
          by simpa using List.find?_some hfind,
          List.mem_of_find?_eq_some hfind, ?_⟩
        unfold resolveEntry
        dsimp only
        rw [hfind]
        rfl

/-- The resolved pairs carry the raw ids and amounts, in order. -/
lemma resolveEntries_map (db : DB) :
    ∀ (es : List RawIngredientEntry), es.all (entryOK db) = true →
      (es.filterMap (resolveEntry db)).map (fun p => (some p.1.id, some p.2))
        = es.map (fun e => (e.id, e.amount))
  | [], _ => rfl
  | e :: es', hall => by
    rcases (by simpa using hall :
        entryOK db e = true ∧ ∀ x ∈ es', entryOK db x = true) with
      ⟨hok, hrest'⟩
    have hrest : es'.all (entryOK db) = true := List.all_eq_true.mpr hrest'
    rcases resolveEntry_of_ok db e hok with
      ⟨i, a, ing, hid, ham, -, -, hingid, -, hre⟩
    rw [List.filterMap_cons, hre, List.map_cons, List.map_cons,
      resolveEntries_map db es' hrest, hid, ham, hingid]

/-- Every resolved pair is a catalog ingredient with a positive amount, and
the catalog lookup by its id returns it again. -/
lemma resolveEntries_mem (db : DB) (es : List RawIngredientEntry)
    (hall : es.all (entryOK db) = true) :
    ∀ p ∈ es.filterMap (resolveEntry db), p.1 ∈ db.ingredients ∧ 1 ≤ p.2 ∧
      db.ingredients.find? (fun x => x.id = p.1.id) = some p.1 := by
  intro p hp
  rcases List.mem_filterMap.mp hp with ⟨e, he, hre⟩
  rcases resolveEntry_of_ok db e (List.all_eq_true.mp hall e he) with
    ⟨i, a, ing, -, -, hpos, hfind, hingid, hmem, hre'⟩
  rw [hre'] at hre
  rcases Option.some.inj hre with rfl
  exact ⟨hmem, hpos, by rw [hingid]; exact hfind⟩

/-- Resolved tags carry the requested ids in order, re-looking them up in the
catalog recovers them, and they are catalog rows. -/
lemma resolveTags_spec (db : DB) :
    ∀ (ids : List Nat) (ts : List Tag), resolveTags db ids = some ts →
      ts.map Tag.id = ids ∧
      ids.filterMap (fun tid => db.tags.find? (fun t => t.id = tid)) = ts ∧
      ∀ t ∈ ts, t ∈ db.tags
  | [], ts, h => by
    obtain rfl : ts = [] := (Option.some.inj h).symm
    exact ⟨rfl, rfl, fun t ht => absurd ht (List.not_mem_nil t)⟩
  | i :: ids', ts, h => by
    unfold resolveTags at h
    cases hfind : db.tags.find? (fun t => t.id = i) with
    | none => rw [hfind] at h; simp at h
    | some t =>
      cases hrest : resolveTags db ids' with
      | none => rw [hfind, hrest] at h; simp at h
      | some ts' =>
        rw [hfind, hrest] at h
        obtain rfl : ts = t :: ts' := (Option.some.inj h).symm
        have hrec := resolveTags_spec db ids' ts' hrest
        have htid : t.id = i := by simpa using List.find?_some hfind
        refine ⟨?_, ?_, ?_⟩
        · rw [List.map_cons, htid, hrec.1]
        · rw [List.filterMap_cons, hfind, hrec.2.1]
        · intro t' ht'
          rcases List.mem_cons.mp ht' with rfl | ht'
          · exact List.mem_of_find?_eq_some hfind
          · exact hrec.2.2 t' ht'

/-- A valid input passes both validation stages, in either mode, yielding the
resolved tags and ingredient pairs together with the scalar fields. -/
lemma runValidation_valid (db : DB) (patch : Bool) (inp : RecipeInput)
    (h : validInput db inp = true) :
    ∃ ids es ts, inp.tags = some ids ∧ inp.ingredients = some es ∧
      resolveTags db ids = some ts ∧ ts ≠ [] ∧ es ≠ [] ∧
      es.all (entryOK db) = true ∧
      (es.map RawIngredientEntry.id).Nodup ∧ 1 ≤ inp.cooking_time ∧
      runValidation db patch inp = .ok
        { name := inp.name, image := inp.image, text := inp.text,
          cooking_time := inp.cooking_time, tags := ts,
          ingredients := es.filterMap (resolveEntry db) } := by
  rcases Bool.and_eq_true_iff.mp h with ⟨h12, hct⟩
  rcases Bool.and_eq_true_iff.mp h12 with ⟨htags, hing⟩
  have hct' : 1 ≤ inp.cooking_time := of_decide_eq_true hct
  rcases hts : inp.tags with _ | ids
  · rw [hts] at htags; simp [tagsOK] at htags
  rw [hts] at htags
  unfold tagsOK at htags
  dsimp only at htags
  rcases hrt : resolveTags db ids with _ | ts
  · rw [hrt] at htags; simp at htags
  rw [hrt] at htags
  rcases (by simpa using htags : ts ≠ [] ∧ (ts.map Tag.name).Nodup) with
    ⟨hne0, hnd'⟩
  have he : ts.isEmpty = false := by
    rcases ts with _ | ⟨t0, ts'⟩
    · exact absurd rfl hne0
    · rfl
  rcases his : inp.ingredients with _ | es
  · rw [his] at hing; simp at hing
  rw [his] at hing
  rcases (by simpa using hing :
      (es ≠ [] ∧ ∀ x ∈ es, entryOK db x = true) ∧
        (es.map RawIngredientEntry.id).Nodup) with
    ⟨⟨hesne', hall'⟩, hidnodup'⟩
  have hall : es.all (entryOK db) = true := List.all_eq_true.mpr hall'
  have hTF := tagsFieldStage_clean db patch ids ts hrt he hnd'
  have hIF := ingredientsFieldStage_clean db patch es hall
  have hpairs_map := resolveEntries_map db es hall
  have hlen : (es.filterMap (resolveEntry db)).length = es.length := by
    have := congrArg List.length hpairs_map
    simpa using this
  obtain ⟨p, rest, hp⟩ :
      ∃ p rest, es.filterMap (resolveEntry db) = p :: rest := by
    cases hpp : es.filterMap (resolveEntry db) with
    | nil =>
      rw [hpp] at hlen
      rcases es with _ | ⟨e, es'⟩
      · exact absurd rfl hesne'
      · simp at hlen
    | cons p rest => exact ⟨p, rest, rfl⟩
  have hpnodup : ((es.filterMap (resolveEntry db)).map
      (fun q => q.1.id)).Nodup := by
    have h1 : ((es.filterMap (resolveEntry db)).map
        (fun q => q.1.id)).map some = es.map RawIngredientEntry.id := by
      have := congrArg (List.map Prod.fst) hpairs_map
      simpa [List.map_map, Function.comp] using this
    have h2 : (((es.filterMap (resolveEntry db)).map
        (fun q => q.1.id)).map some).Nodup := by
      rw [h1]; exact hidnodup'
    exact h2.of_map
  obtain ⟨t0, ts', hts0⟩ : ∃ t0 ts', ts = t0 :: ts' := by
    rcases ts with _ | ⟨t0, ts'⟩
    · simp at he
    · exact ⟨t0, ts', rfl⟩
  refine ⟨ids, es, ts, rfl, rfl, hrt, by rw [hts0]; simp, hesne', hall,
    hidnodup', hct', ?_⟩
  simp only [runValidation, hts, his, hTF, hIF, cookingTimeFieldStage,
    if_neg (by omega : ¬inp.cooking_time < 1)]
  rw [hp, hts0]
  have hpnodup' : (((p :: rest) : List (Ingredient × Int)).map
      (fun q => q.1.id)).Nodup := hp ▸ hpnodup
  simp only [List.isEmpty_nil, Bool.and_self, if_true]
  rw [if_pos hpnodup']

/-- A clean ingredients field stage (non-partial) is exactly a supplied list
of clean entries. -/
lemma ingredientsFieldStage_clean_iff (db : DB)
    (es? : Option (List RawIngredientEntry)) :
    (ingredientsFieldStage db false es?).1 = [] ↔
      ∃ es, es? = some es ∧ es.all (entryOK db) = true := by
  cases es? with
  | none =>
    simp [ingredientsFieldStage]
  | some es =>
    cases hall : es.all (entryOK db)
    · constructor
      · intro hcontra
        exact absurd hcontra
          (ingredientsFieldStage_unclean db false es hall).2.1
      · rintro ⟨es', hes', hall'⟩
        obtain rfl : es = es' := Option.some.inj hes'
        rw [hall'] at hall
        exact absurd hall (by simp)
    · rw [ingredientsFieldStage_clean db false es hall]
      exact ⟨fun _ => ⟨es, rfl, hall⟩, fun _ => rfl⟩

/-- A successful validation implies every condition of `validInput`. -/
lemma runValidation_ok_imp_valid (db : DB) (inp : RecipeInput)
    (vd : ValidatedData) (h : runValidation db false inp = .ok vd) :
    validInput db inp = true := by
  by_cases hcond : ((tagsFieldStage db false inp.tags).1.isEmpty &&
      ((ingredientsFieldStage db false inp.ingredients).1.isEmpty &&
        (cookingTimeFieldStage inp.cooking_time).isEmpty)) = true
  case neg =>
    have herr : runValidation db false inp
        = .error (.fieldErrors ⟨(tagsFieldStage db false inp.tags).1,
            (ingredientsFieldStage db false inp.ingredients).1,
            cookingTimeFieldStage inp.cooking_time⟩) := by
      simp only [runValidation]
      rw [if_neg (by simpa [Bool.and_assoc] using hcond)]
    rw [herr] at h
    exact absurd h (by simp)
  case pos =>
    rcases Bool.and_eq_true_iff.mp hcond with ⟨htagsNil, hrest⟩
    rcases Bool.and_eq_true_iff.mp hrest with ⟨hingNil, hctNil⟩
    have htagsOK : tagsOK db inp.tags = true :=
      (tagsFieldStage_clean_iff db inp.tags).mp (List.isEmpty_iff.mp htagsNil)
    rcases (ingredientsFieldStage_clean_iff db inp.ingredients).mp
      (List.isEmpty_iff.mp hingNil) with ⟨es, hes, hall⟩
    have hct : 1 ≤ inp.cooking_time := by
      by_contra hcontra
      have : cookingTimeFieldStage inp.cooking_time
          = [.cookingTimeTooSmall] := by
        unfold cookingTimeFieldStage
        rw [if_pos (by omega)]
      rw [this] at hctNil
      simp at hctNil
    -- unpack tagsOK to evaluate the tags stage
    rcases hts : inp.tags with _ | ids
    · rw [hts] at htagsOK; simp [tagsOK] at htagsOK
    have htagsOK' := htagsOK
    rw [hts] at htagsOK'
    unfold tagsOK at htagsOK'
    dsimp only at htagsOK'
    rcases hrt : resolveTags db ids with _ | ts
    · rw [hrt] at htagsOK'; simp at htagsOK'
    rw [hrt] at htagsOK'
    rcases (by simpa using htagsOK' : ts ≠ [] ∧ (ts.map Tag.name).Nodup) with
      ⟨hne0, hnd'⟩
    have he : ts.isEmpty = false := by
      rcases ts with _ | ⟨t0, ts'⟩
      · exact absurd rfl hne0
      · rfl
    have hTF := tagsFieldStage_clean db false ids ts hrt he hnd'
    have hIF := ingredientsFieldStage_clean db false es hall
    -- evaluate the cross stage inside h
    rw [runValidation] at h
    simp only [hts, hes, hTF, hIF, cookingTimeFieldStage,
      if_neg (by omega : ¬inp.cooking_time < 1)] at h
    simp only [List.isEmpty_nil, Bool.and_self, if_true] at h
    rcases hp : es.filterMap (resolveEntry db) with _ | ⟨p, rest⟩
    · rw [hp] at h; simp at h
    rw [hp] at h
    dsimp only at h
    by_cases hnodup : (((p :: rest) : List (Ingredient × Int)).map
        (fun q => q.1.id)).Nodup
    · -- derive the raw-id facts and assemble validInput
      have hes_ne : es ≠ [] := by
        intro hcontra
        rw [hcontra] at hp
        exact absurd hp.symm (by simp)
      have hidnodup : (es.map RawIngredientEntry.id).Nodup := by
        have h1 : ((es.filterMap (resolveEntry db)).map
            (fun q => q.1.id)).map some = es.map RawIngredientEntry.id := by
          have := congrArg (List.map Prod.fst) (resolveEntries_map db es hall)
          simpa [List.map_map, Function.comp] using this
        rw [← h1, hp]
        exact List.Nodup.map (Option.some_injective _) hnodup
      unfold validInput
      rw [hts, hes]
      dsimp only
      have htagsOK2 : tagsOK db (some ids) = true := by
        rw [← hts]; exact htagsOK
      rw [htagsOK2]
      simp [hall, hct, hidnodup, List.isEmpty_iff, hes_ne]
    · rw [if_neg hnodup] at h
      exact absurd h (by simp)

/-- Unpack a clean tags field: the supplied ids, their resolution, and the
stage value, in either mode. -/
lemma tagsOK_clean (db : DB) (tags? : Option (List Nat))
    (h : tagsOK db tags? = true) :
    ∃ ids ts, tags? = some ids ∧ resolveTags db ids = some ts ∧ ts ≠ [] ∧
      (ts.map Tag.name).Nodup ∧
      ∀ patch, tagsFieldStage db patch (some ids) = ([], some ts) := by
  rcases tags? with _ | ids
  · simp [tagsOK] at h
  unfold tagsOK at h
  dsimp only at h
  rcases hrt : resolveTags db ids with _ | ts
  · rw [hrt] at h; simp at h
  rw [hrt] at h
  rcases (by simpa using h : ts ≠ [] ∧ (ts.map Tag.name).Nodup) with ⟨hne, hnd⟩
  have he : ts.isEmpty = false := by
    rcases ts with _ | ⟨t0, ts'⟩
    · exact absurd rfl hne
    · rfl
  exact ⟨ids, ts, rfl, hrt, hne, hnd,
    fun patch => tagsFieldStage_clean db patch ids ts hrt he hnd⟩

/-- An entry whose amount is non-positive carries the `validate_amount`
error in its field errors. -/
lemma entryFieldStage_amount_err (db : DB) (e : RawIngredientEntry) (a : Int)
    (ham : e.amount = some a) (hle : a ≤ 0) :
    VErr.amountNotPositive ∈ (entryFieldStage db e).1 := by
  rcases e with ⟨eid, eam⟩
  obtain rfl : eam = some a := ham
  cases eid with
  | none => simp [entryFieldStage, hle]
  | some i =>
    cases hfind : db.ingredients.find? (fun x => x.id = i) with
    | none => simp [entryFieldStage, hfind, hle]
    | some ing => simp [entryFieldStage, hfind, hle]

/-! ## C2 (amended): two-stage validation behaviour -/

/-- C2 (amended): validation runs in two stages. The field stage evaluates
tags (non-empty, resolvable, no duplicates), every ingredient entry (id and
amount present, id resolvable, amount ≥ 1) and cooking_time ≥ 1 together,
collecting the failures of all fields into one field-keyed ValidationError;
only when every field is clean does the cross-field stage run, in source
order: ingredient list non-empty, then no duplicate ingredient ids, then tags
present — first failure winning, surfaced as a non-field error. Validation
succeeds exactly when every condition holds, and each conjunct below shows a
violated condition surfacing with an error naming it. -/
theorem recipe_validation_two_stage (db : DB) (inp : RecipeInput) :
    ((runValidation db false inp).isOk = validInput db inp) ∧
    (inp.tags = some [] →
      ∃ fe, runValidation db false inp = .error (.fieldErrors fe) ∧
        fe.tags = [.tagsEmpty]) ∧
    (∀ ids ts, inp.tags = some ids → resolveTags db ids = some ts →
      ts ≠ [] → ¬(ts.map Tag.name).Nodup →
      ∃ fe, runValidation db false inp = .error (.fieldErrors fe) ∧
        fe.tags = [.tagsDuplicate]) ∧
    (∀ es e a, inp.ingredients = some es → e ∈ es → e.amount = some a →
      a ≤ 0 →
      ∃ fe, runValidation db false inp = .error (.fieldErrors fe) ∧
        VErr.amountNotPositive ∈ fe.ingredients) ∧
    (∀ es e, inp.ingredients = some es → e ∈ es →
      (e.id = none ∨ e.amount = none) →
      ∃ fe, runValidation db false inp = .error (.fieldErrors fe) ∧
        fe.ingredients ≠ []) ∧
    (inp.cooking_time < 1 →
      ∃ fe, runValidation db false inp = .error (.fieldErrors fe) ∧
        fe.cooking_time = [.cookingTimeTooSmall]) ∧
    (inp.ingredients = some [] → tagsOK db inp.tags = true →
      1 ≤ inp.cooking_time →
      runValidation db false inp = .error (.nonField .ingredientsEmpty)) ∧
    (∀ es, inp.ingredients = some es → es ≠ [] →
      es.all (entryOK db) = true → ¬(es.map RawIngredientEntry.id).Nodup →
      tagsOK db inp.tags = true → 1 ≤ inp.cooking_time →
      runValidation db false inp = .error (.nonField .ingredientsDuplicate)) := by
  refine ⟨?_, ?_, ?_, ?_, ?_, ?_, ?_, ?_⟩
  · -- success is exactly validInput
    cases hv : validInput db inp
    · cases hrv : runValidation db false inp with
      | error e => rfl
      | ok vd =>
        have := runValidation_ok_imp_valid db inp vd hrv
        rw [hv] at this
        exact absurd this (by simp)
    · rcases runValidation_valid db false inp hv with
        ⟨ids, es, ts, -, -, -, -, -, -, -, -, hok⟩
      rw [hok]
      rfl
  · -- empty tags: field error naming the tags condition
    intro h2
    have hTF : tagsFieldStage db false inp.tags = ([.tagsEmpty], none) := by
      rw [h2]
      exact tagsFieldStage_empty db false [] [] rfl rfl
    refine ⟨⟨[.tagsEmpty], (ingredientsFieldStage db false inp.ingredients).1,
      cookingTimeFieldStage inp.cooking_time⟩, ?_, rfl⟩
    simp only [runValidation, hTF]
    rw [if_neg (by simp)]
  · -- duplicate tags: field error naming the tags condition
    intro ids ts h2 hrt hne hnd
    have he : ts.isEmpty = false := by
      rcases ts with _ | ⟨t0, ts'⟩
      · exact absurd rfl hne
      · rfl
    have hTF : tagsFieldStage db false inp.tags = ([.tagsDuplicate], none) := by
      rw [h2]
      exact tagsFieldStage_dup db false ids ts hrt he hnd
    refine ⟨⟨[.tagsDuplicate],
      (ingredientsFieldStage db false inp.ingredients).1,
      cookingTimeFieldStage inp.cooking_time⟩, ?_, rfl⟩
    simp only [runValidation, hTF]
    rw [if_neg (by simp)]
  · -- non-positive amount: field error carrying validate_amount's message
    intro es e a h2 he ham hle
    have hbad : entryOK db e = false := by
      rcases e with ⟨eid, eam⟩
      obtain rfl : eam = some a := ham
      cases eid <;> simp [entryOK, show ¬(1 ≤ a) by omega]
    have hallF : es.all (entryOK db) = false :=
      List.all_eq_false.mpr ⟨e, he, by rw [hbad]; simp⟩
    obtain ⟨hflat, hne', -⟩ := ingredientsFieldStage_unclean db false es hallF
    have hmem : VErr.amountNotPositive
        ∈ (ingredientsFieldStage db false (some es)).1 := by
      rw [hflat]
      exact List.mem_flatMap.mpr ⟨entryFieldStage db e,
        List.mem_map.mpr ⟨e, he, rfl⟩,
        entryFieldStage_amount_err db e a ham hle⟩
    refine ⟨⟨(tagsFieldStage db false inp.tags).1,
      (ingredientsFieldStage db false (some es)).1,
      cookingTimeFieldStage inp.cooking_time⟩, ?_, hmem⟩
    simp only [runValidation, h2]
    rw [if_neg ?hcond]
    case hcond =>
      intro hc
      have hingNil : (ingredientsFieldStage db false (some es)).1.isEmpty
          = true := by
        simp only [Bool.and_eq_true] at hc
        tauto
      exact hne' (List.isEmpty_iff.mp hingNil)
  · -- missing id or amount: ingredient field errors are non-empty
    intro es e h2 he hmiss
    have hbad : entryOK db e = false := by
      rcases e with ⟨eid, eam⟩
      rcases hmiss with hid | ham
      · obtain rfl : eid = none := hid
        simp [entryOK]
      · obtain rfl : eam = none := ham
        cases eid <;> simp [entryOK]
    have hallF : es.all (entryOK db) = false :=
      List.all_eq_false.mpr ⟨e, he, by rw [hbad]; simp⟩
    obtain ⟨-, hne', -⟩ := ingredientsFieldStage_unclean db false es hallF
    refine ⟨⟨(tagsFieldStage db false inp.tags).1,
      (ingredientsFieldStage db false (some es)).1,
      cookingTimeFieldStage inp.cooking_time⟩, ?_, hne'⟩
    simp only [runValidation, h2]
    rw [if_neg ?hcond2]
    case hcond2 =>
      intro hc
      have hingNil : (ingredientsFieldStage db false (some es)).1.isEmpty
          = true := by
        simp only [Bool.and_eq_true] at hc
        tauto
      exact hne' (List.isEmpty_iff.mp hingNil)
  · -- cooking_time < 1: field error naming cooking_time
    intro hct
    have hCT : cookingTimeFieldStage inp.cooking_time
        = [.cookingTimeTooSmall] := by
      unfold cookingTimeFieldStage
      rw [if_pos hct]
    refine ⟨⟨(tagsFieldStage db false inp.tags).1,
      (ingredientsFieldStage db false inp.ingredients).1,
      [.cookingTimeTooSmall]⟩, ?_, rfl⟩
    simp only [runValidation, hCT]
    rw [if_neg ?hcond3]
    case hcond3 =>
      intro hc
      have : ([VErr.cookingTimeTooSmall] : List VErr).isEmpty = true := by
        simp only [Bool.and_eq_true] at hc
        tauto
      simp at this
  · -- empty ingredient list with clean fields: first cross-stage error
    intro h2 htOK hct
    rcases tagsOK_clean db inp.tags htOK with ⟨ids, ts, hts, hrt, hne, hnd, hTF⟩
    have hIF : ingredientsFieldStage db false (some []) = ([], some []) :=
      ingredientsFieldStage_clean db false [] rfl
    simp only [runValidation, hts, h2, hTF false, hIF,
      cookingTimeFieldStage, if_neg (by omega : ¬inp.cooking_time < 1)]
    simp only [List.isEmpty_nil, Bool.and_self, if_true]
  · -- duplicate ingredient ids with clean fields: second cross-stage error
    intro es h2 hesne hall hnodup htOK hct
    rcases tagsOK_clean db inp.tags htOK with ⟨ids, ts, hts, hrt, hne, hnd, hTF⟩
    have hIF := ingredientsFieldStage_clean db false es hall
    have hpairs_map := resolveEntries_map db es hall
    obtain ⟨p, rest, hp⟩ :
        ∃ p rest, es.filterMap (resolveEntry db) = p :: rest := by
      cases hpp : es.filterMap (resolveEntry db) with
      | nil =>
        have hlen := congrArg List.length hpairs_map
        rw [hpp] at hlen
        rcases es with _ | ⟨e, es'⟩
        · exact absurd rfl hesne
        · simp at hlen
      | cons p rest => exact ⟨p, rest, rfl⟩
    have hpnodupF : ¬(((p :: rest) : List (Ingredient × Int)).map
        (fun q => q.1.id)).Nodup := by
      intro hcontra
      have h1 : ((es.filterMap (resolveEntry db)).map
          (fun q => q.1.id)).map some = es.map RawIngredientEntry.id := by
        have := congrArg (List.map Prod.fst) hpairs_map
        simpa [List.map_map, Function.comp] using this
      refine hnodup ?_
      rw [← h1, hp]
      exact List.Nodup.map (Option.some_injective _) hcontra
    simp only [runValidation, hts, h2, hTF false, hIF,
      cookingTimeFieldStage, if_neg (by omega : ¬inp.cooking_time < 1)]
    rw [hp]
    simp only [List.isEmpty_nil, Bool.and_self, if_true]
    rw [if_neg hpnodupF]

/-- Input with both duplicate ingredient ids (the claim's condition 2) and a
non-positive cooking_time (condition 3). -/
def orderCEInput : RecipeInput :=
  { name := "n", image := "i", text := "t", cooking_time := 0,
    tags := some [1],
    ingredients := some [⟨some 1, some 2⟩, ⟨some 1, some 3⟩] }

/-- Counterexample for C2 as stated: the input violates both the
duplicate-ingredient condition (listed second) and the cooking_time condition
(listed third), yet the reported ValidationError names only cooking_time —
its ingredients key is empty — because the duplicate check lives in the
cross-field stage, which never runs when a field check fails. -/
theorem validation_order_counterexample :
    ¬((orderCEInput.ingredients.getD []).map RawIngredientEntry.id).Nodup ∧
    orderCEInput.cooking_time < 1 ∧
    runValidation sampleDB false orderCEInput =
      .error (.fieldErrors ⟨[], [], [.cookingTimeTooSmall]⟩) :=
  ⟨by decide, by decide, by rfl⟩

/-- Witness for C2: on the sample state, an input whose only flaw is an
empty tag list fails with a field error naming the tags condition. -/
theorem recipe_validation_two_stage_witness :
    ∃ fe, runValidation sampleDB false
        { name := "n", image := "i", text := "t", cooking_time := 5,
          tags := some [], ingredients := some [⟨some 1, some 2⟩] }
      = .error (.fieldErrors fe) ∧ fe.tags = [.tagsEmpty] :=
  (recipe_validation_two_stage sampleDB
    { name := "n", image := "i", text := "t", cooking_time := 5,
      tags := some [], ingredients := some [⟨some 1, some 2⟩] }).2.1 rfl

/-! ## State lemmas for the write steps -/

lemma le_foldr_max : ∀ (l : List Nat) (a : Nat), a ∈ l → a ≤ l.foldr max 0
  | [], a, h => absurd h (List.not_mem_nil a)
  | b :: t, a, h => by
    rcases List.mem_cons.mp h with rfl | h
    · exact le_max_left _ _
    · exact le_trans (le_foldr_max t a h) (le_max_right _ _)

/-- Every existing recipe pk is strictly below the fresh pk. -/
lemma id_lt_fresh (db : DB) : ∀ r ∈ db.recipes, r.id < freshRecipeId db := by
  intro r hr
  have : r.id ≤ (db.recipes.map Recipe.id).foldr max 0 :=
    le_foldr_max _ _ (List.mem_map.mpr ⟨r, hr, rfl⟩)
  unfold freshRecipeId
  omega

lemma applySteps_append (l1 l2 : List (DB → DB)) (db : DB) :
    applySteps (l1 ++ l2) db = applySteps l2 (applySteps l1 db) :=
  List.foldl_append _ _ l1 l2

lemma applySteps_cons (f : DB → DB) (steps : List (DB → DB)) (db : DB) :
    applySteps (f :: steps) db = applySteps steps (f db) := rfl

/-- Running the per-pair insert steps appends exactly the fresh join rows, in
order, and touches no other table. -/
lemma applySteps_inserts (rid : Nat) :
    ∀ (ps : List (Ingredient × Int)) (db0 : DB),
      applySteps (ps.map (insertRowStep rid)) db0 =
        { db0 with
            ingredientinrecipe := db0.ingredientinrecipe ++
              ps.map (fun p => (⟨rid, p.1.id, p.2⟩ : IngredientInRecipe)) }
  | [], db0 => by simp [applySteps]
  | p :: ps', db0 => by
    show applySteps (ps'.map (insertRowStep rid)) (insertRowStep rid p db0) = _
    rw [applySteps_inserts rid ps' (insertRowStep rid p db0)]
    simp [insertRowStep]

/-- Running the per-pair upsert steps on a state holding no join row of the
recipe with a supplied ingredient id appends exactly the fresh rows. -/
lemma applySteps_upserts (rid : Nat) :
    ∀ (ps : List (Ingredient × Int)) (db0 : DB),
      (∀ row ∈ db0.ingredientinrecipe, row.recipe = rid →
        row.ingredient ∉ ps.map (fun p => p.1.id)) →
      (ps.map (fun p => p.1.id)).Nodup →
      applySteps (ps.map (upsertRowStep rid)) db0 =
        { db0 with
            ingredientinrecipe := db0.ingredientinrecipe ++
              ps.map (fun p => (⟨rid, p.1.id, p.2⟩ : IngredientInRecipe)) }
  | [], db0, _, _ => by simp [applySteps]
  | p :: ps', db0, hol, hnd => by
    have hnone : ¬(db0.ingredientinrecipe.any
        (fun row => row.recipe = rid ∧ row.ingredient = p.1.id)) = true := by
      intro hc
      rcases List.any_eq_true.mp hc with ⟨row, hrow, hcond⟩
      rcases of_decide_eq_true hcond with ⟨h1, h2⟩
      exact hol row hrow h1 (by rw [h2]; exact List.mem_cons_self _ _)
    have hstep : upsertRowStep rid p db0 =
        { db0 with ingredientinrecipe :=
            db0.ingredientinrecipe ++ [⟨rid, p.1.id, p.2⟩] } := by
      unfold upsertRowStep
      rw [if_neg hnone]
    show applySteps (ps'.map (upsertRowStep rid)) (upsertRowStep rid p db0) = _
    rcases List.nodup_cons.mp hnd with ⟨hp, hnd'⟩
    rw [hstep, applySteps_upserts rid ps'
      { db0 with
          ingredientinrecipe :=
            db0.ingredientinrecipe ++ [⟨rid, p.1.id, p.2⟩] }
      (by
        intro row hrow hrec
        rcases List.mem_append.mp hrow with hrow | hrow
        · exact fun hmem =>
            hol row hrow hrec (List.mem_cons_of_mem _ hmem)
        · rcases List.mem_singleton.mp hrow with rfl
          exact hp)
      hnd']
    simp

lemma filterMap_eq_map_of_some {α β : Type _} (f : α → Option β) (g : α → β) :
    ∀ (l : List α), (∀ x ∈ l, f x = some (g x)) → l.filterMap f = l.map g
  | [], _ => rfl
  | x :: xs, h => by
    rw [List.filterMap_cons, h x (List.mem_cons_self x xs),
      filterMap_eq_map_of_some f g xs
        (fun y hy => h y (List.mem_cons_of_mem x hy)),
      List.map_cons]

/-- The state produced by a valid create call: one appended recipe row
carrying the resolved tag ids, and the resolved join rows appended in input
order. -/
lemma runCreate_state (db : DB) (author : Nat) (inp : RecipeInput)
    (h : validInput db inp = true) :
    ∃ ids es ts, inp.tags = some ids ∧ inp.ingredients = some es ∧
      resolveTags db ids = some ts ∧ es.all (entryOK db) = true ∧
      runCreate db author inp = .ok
        ({ db with
            recipes := db.recipes ++
              [{ id := freshRecipeId db, author := author, name := inp.name,
                 image := inp.image, text := inp.text,
                 cooking_time := inp.cooking_time, tags := ts.map Tag.id }],
            ingredientinrecipe := db.ingredientinrecipe ++
              (es.filterMap (resolveEntry db)).map
                (fun p => ⟨freshRecipeId db, p.1.id, p.2⟩) },
          freshRecipeId db) := by
  rcases runValidation_valid db false inp h with
    ⟨ids, es, ts, hts, his, hrt, -, -, hall, -, -, hok⟩
  refine ⟨ids, es, ts, hts, his, hrt, hall, ?_⟩
  unfold runCreate
  rw [hok]
  dsimp only
  unfold createSteps
  have hins : insertRecipeStep (freshRecipeId db) author
      { name := inp.name, image := inp.image, text := inp.text,
        cooking_time := inp.cooking_time, tags := ts,
        ingredients := es.filterMap (resolveEntry db) } db =
      { db with recipes := db.recipes ++
          [{ id := freshRecipeId db, author := author, name := inp.name,
             image := inp.image, text := inp.text,
             cooking_time := inp.cooking_time, tags := [] }] } := rfl
  have htag : setTagsStep (freshRecipeId db) ts
      { db with recipes := db.recipes ++
          [{ id := freshRecipeId db, author := author, name := inp.name,
             image := inp.image, text := inp.text,
             cooking_time := inp.cooking_time, tags := [] }] } =
      { db with recipes := db.recipes ++
          [{ id := freshRecipeId db, author := author, name := inp.name,
             image := inp.image, text := inp.text,
             cooking_time := inp.cooking_time, tags := ts.map Tag.id }] } := by
    unfold setTagsStep
    congr 1
    rw [List.map_append]
    congr 1
    · calc db.recipes.map (fun r =>
            if r.id = freshRecipeId db then { r with tags := ts.map Tag.id }
            else r)
          = db.recipes.map id := List.map_congr_left (fun r hr =>
            if_neg (Nat.ne_of_lt (id_lt_fresh db r hr)))
        _ = db.recipes := List.map_id db.recipes
    · simp
  rw [applySteps_cons, applySteps_cons, hins, htag, applySteps_inserts]

/-! ## C1: create followed by project round-trips the input -/

/-- C1: for every valid input, `create` followed by `project` yields a view
whose tag list carries exactly the input tag ids (in order, hence as a set),
and whose ingredient list equals the input (ingredient, amount) pairs in
insertion order, each row enriched with the catalog ingredient's id, name and
measurement unit plus the supplied amount. -/
theorem create_project_roundtrip (db : DB) (author : Nat) (inp : RecipeInput)
    (viewer : Option Nat) (hWF : db.WF) (hval : validInput db inp = true) :
    ∃ db' view, runCreate db author inp = .ok (db', freshRecipeId db) ∧
      projectRecipe db' viewer (freshRecipeId db) = some view ∧
      (∀ ids, inp.tags = some ids → view.tags.map Tag.id = ids) ∧
      (∀ es, inp.ingredients = some es →
        view.ingredients.map (fun iv => (some iv.id, some iv.amount)) =
          es.map (fun e => (e.id, e.amount))) ∧
      (∀ iv ∈ view.ingredients, ∃ ing ∈ db.ingredients,
        iv.id = ing.id ∧ iv.name = ing.name ∧
        iv.measurement_unit = ing.measurement_unit) := by
  obtain ⟨-, -, -, -, -, -, hfk, -, -, -, -⟩ := hWF
  rcases runCreate_state db author inp hval with
    ⟨ids, es, ts, hts, his, hrt, hall, hok'⟩
  rcases resolveTags_spec db ids ts hrt with ⟨hmapid, hfm, -⟩
  have hpmem := resolveEntries_mem db es hall
  have hpmap := resolveEntries_map db es hall
  have hfold : db.recipes.find?
      (fun r => decide (r.id = freshRecipeId db)) = none :=
    List.find?_eq_none.mpr (fun r hr => by
      simpa using Nat.ne_of_lt (id_lt_fresh db r hr))
  refine ⟨_,
    { id := freshRecipeId db, author := author, name := inp.name,
      image := inp.image, text := inp.text, cooking_time := inp.cooking_time,
      tags := ts,
      ingredients := (es.filterMap (resolveEntry db)).map
        (fun p => ⟨p.1.id, p.1.name, p.1.measurement_unit, p.2⟩),
      is_favorited := match viewer with
        | some u => decide ((u, freshRecipeId db) ∈ db.favorites)
        | none => false,
      is_in_shopping_cart := match viewer with
        | some u => decide ((u, freshRecipeId db) ∈ db.shopping_cart)
        | none => false },
    hok', ?_, ?_, ?_, ?_⟩
  · unfold projectRecipe
    dsimp only
    rw [List.find?_append, hfold, Option.none_or,
      List.find?_cons_of_pos _ (by simp), Option.map_some']
    simp only [Option.some.injEq, RecipeView.mk.injEq]
    refine ⟨?_, ?_, ?_, ?_, ?_, ?_, ?_, ?_, ?_, ?_⟩ <;> try trivial
    · rw [hmapid]
      exact hfm
    · rw [List.filter_append]
      have h1 : db.ingredientinrecipe.filter
          (fun row => decide (row.recipe = freshRecipeId db)) = [] := by
        refine List.filter_eq_nil_iff.mpr (fun row hrow => ?_)
        rcases List.mem_map.mp (hfk row hrow) with ⟨r, hrmem, hrid⟩
        simp only [decide_eq_true_eq]
        rw [← hrid]
        exact Nat.ne_of_lt (id_lt_fresh db r hrmem)
      have h2 : ((es.filterMap (resolveEntry db)).map
          (fun p => (⟨freshRecipeId db, p.1.id, p.2⟩ :
            IngredientInRecipe))).filter
          (fun row => decide (row.recipe = freshRecipeId db)) =
          (es.filterMap (resolveEntry db)).map
            (fun p => ⟨freshRecipeId db, p.1.id, p.2⟩) := by
        refine List.filter_eq_self.mpr (fun row hrow => ?_)
        rcases List.mem_map.mp hrow with ⟨p, -, rfl⟩
        simp
      rw [h1, h2, List.nil_append, List.filterMap_map]
      refine filterMap_eq_map_of_some _ _ _ (fun p hp => ?_)
      show (db.ingredients.find? (fun i => i.id = p.1.id)).map _ = _
      rw [(hpmem p hp).2.2, Option.map_some']
  · intro ids0 h0
    rw [hts] at h0
    obtain rfl : ids0 = ids := (Option.some.inj h0).symm
    exact hmapid
  · intro es0 h0
    rw [his] at h0
    obtain rfl : es0 = es := (Option.some.inj h0).symm
    rw [List.map_map]
    exact hpmap
  · intro iv hiv
    rcases List.mem_map.mp hiv with ⟨p, hp, rfl⟩
    exact ⟨p.1, (hpmem p hp).1, rfl, rfl, rfl⟩

/-- Witness for C1: on the sample state, creating a cake recipe with tags
[1, 2] and ingredients [(1, ×3), (2, ×4)] and projecting it back returns the
same tags and the enriched ingredient rows in order. -/
theorem create_project_roundtrip_witness :
    DB.WF sampleDB ∧
    validInput sampleDB
      { name := "cake", image := "img2", text := "text2", cooking_time := 30,
        tags := some [1, 2],
        ingredients := some [⟨some 1, some 3⟩, ⟨some 2, some 4⟩] } = true ∧
    ∃ db' view, runCreate sampleDB 11
        { name := "cake", image := "img2", text := "text2",
          cooking_time := 30, tags := some [1, 2],
          ingredients := some [⟨some 1, some 3⟩, ⟨some 2, some 4⟩] }
        = .ok (db', freshRecipeId sampleDB) ∧
      projectRecipe db' (some 11) (freshRecipeId sampleDB) = some view ∧
      (∀ ids, (some [1, 2] : Option (List Nat)) = some ids →
        view.tags.map Tag.id = ids) ∧
      (∀ es, (some [⟨some 1, some 3⟩, ⟨some 2, some 4⟩] :
          Option (List RawIngredientEntry)) = some es →
        view.ingredients.map (fun iv => (some iv.id, some iv.amount)) =
          es.map (fun e => (e.id, e.amount))) ∧
      (∀ iv ∈ view.ingredients, ∃ ing ∈ sampleDB.ingredients,
        iv.id = ing.id ∧ iv.name = ing.name ∧
        iv.measurement_unit = ing.measurement_unit) :=
  ⟨by decide, by decide,
    create_project_roundtrip sampleDB 11
      { name := "cake", image := "img2", text := "text2", cooking_time := 30,
        tags := some [1, 2],
        ingredients := some [⟨some 1, some 3⟩, ⟨some 2, some 4⟩] }
      (some 11) (by decide) (by decide)⟩

/-! ## C5: update replaces rather than merges -/

lemma pairs_id_nodup (db : DB) (es : List RawIngredientEntry)
    (hall : es.all (entryOK db) = true)
    (h : (es.map RawIngredientEntry.id).Nodup) :
    ((es.filterMap (resolveEntry db)).map (fun q => q.1.id)).Nodup := by
  have h1 : ((es.filterMap (resolveEntry db)).map
      (fun q => q.1.id)).map some = es.map RawIngredientEntry.id := by
    have := congrArg (List.map Prod.fst) (resolveEntries_map db es hall)
    simpa [List.map_map, Function.comp] using this
  have h2 : (((es.filterMap (resolveEntry db)).map
      (fun q => q.1.id)).map some).Nodup := by
    rw [h1]; exact h
  exact h2.of_map

/-- The state produced by a valid update call: the recipe's tag set replaced,
the recipe's join rows replaced by the resolved pairs, the scalar columns
overwritten, everything else untouched. -/
lemma runUpdate_state (db : DB) (rid : Nat) (inp : RecipeInput)
    (h : validInput db inp = true) :
    ∃ ids es ts, inp.tags = some ids ∧ inp.ingredients = some es ∧
      resolveTags db ids = some ts ∧ es.all (entryOK db) = true ∧
      runUpdate db rid inp = .ok
        { db with
            recipes := (db.recipes.map (fun r =>
              if r.id = rid then { r with tags := ts.map Tag.id }
              else r)).map (fun r =>
                if r.id = rid then
                  { r with
                      name := inp.name
                      image := inp.image
                      text := inp.text
                      cooking_time := inp.cooking_time }
                else r),
            ingredientinrecipe :=
              db.ingredientinrecipe.filter (fun row => row.recipe ≠ rid) ++
                (es.filterMap (resolveEntry db)).map
                  (fun p => ⟨rid, p.1.id, p.2⟩) } := by
  rcases runValidation_valid db true inp h with
    ⟨ids, es, ts, hts, his, hrt, -, -, hall, hidnd, -, hok⟩
  refine ⟨ids, es, ts, hts, his, hrt, hall, ?_⟩
  unfold runUpdate
  rw [hok]
  dsimp only
  unfold updateSteps
  rw [applySteps_cons, applySteps_cons, applySteps_append]
  have hclear : clearRowsStep rid (setTagsStep rid ts db) =
      { db with
          recipes := db.recipes.map (fun r =>
            if r.id = rid then { r with tags := ts.map Tag.id } else r),
          ingredientinrecipe :=
            db.ingredientinrecipe.filter (fun row => row.recipe ≠ rid) } :=
    rfl
  rw [hclear]
  rw [applySteps_upserts rid (es.filterMap (resolveEntry db))
    { db with
        recipes := db.recipes.map (fun r =>
          if r.id = rid then { r with tags := ts.map Tag.id } else r),
        ingredientinrecipe :=
          db.ingredientinrecipe.filter (fun row => row.recipe ≠ rid) }
    (by
      intro row hrow hrec
      have := List.mem_filter.mp hrow
      rcases this with ⟨-, hne⟩
      exact absurd hrec (by simpa using hne))
    (pairs_id_nodup db es hall hidnd)]
  rfl

/-- C5: an update supplying a tag set and an ingredient set replaces both —
afterwards the recipe's tag list is exactly the supplied ids, its join rows
are exactly the supplied (id, amount) pairs in order, any prior row whose
ingredient was not re-supplied is gone, and rows of other recipes are
untouched. -/
theorem update_replaces (db : DB) (rid : Nat) (inp : RecipeInput)
    (hval : validInput db inp = true)
    (hrec : rid ∈ db.recipes.map Recipe.id) :
    ∃ db', runUpdate db rid inp = .ok db' ∧
      (∀ ids, inp.tags = some ids →
        ∀ r ∈ db'.recipes, r.id = rid → r.tags = ids) ∧
      (∀ es, inp.ingredients = some es →
        (db'.ingredientinrecipe.filter (fun row => row.recipe = rid)).map
            (fun row => (some row.ingredient, some row.amount)) =
          es.map (fun e => (e.id, e.amount)) ∧
        (∀ row ∈ db.ingredientinrecipe, row.recipe = rid →
          (∀ e ∈ es, e.id ≠ some row.ingredient) →
          row ∉ db'.ingredientinrecipe)) ∧
      db'.ingredientinrecipe.filter (fun row => row.recipe ≠ rid) =
        db.ingredientinrecipe.filter (fun row => row.recipe ≠ rid) ∧
      (∃ r ∈ db'.recipes, r.id = rid) := by
  rcases runUpdate_state db rid inp hval with
    ⟨ids, es, ts, hts, his, hrt, hall, hok'⟩
  rcases resolveTags_spec db ids ts hrt with ⟨hmapid, -, -⟩
  have hpmap := resolveEntries_map db es hall
  refine ⟨_, hok', ?_, ?_, ?_, ?_⟩
  · intro ids0 h0 r hr hid
    rw [hts] at h0
    obtain rfl : ids = ids0 := Option.some.inj h0
    rcases List.mem_map.mp hr with ⟨r1, hr1, rfl⟩
    rcases List.mem_map.mp hr1 with ⟨r0, hr0, rfl⟩
    by_cases h0id : r0.id = rid
    · rw [if_pos h0id]
      rw [if_pos h0id] at hid ⊢
      show (ts.map Tag.id) = ids
      exact hmapid
    · rw [if_neg h0id] at hid ⊢
      rw [if_neg (by rw [if_neg h0id] at hid; exact h0id)] at hid
      exact absurd hid h0id
  · intro es0 h0
    rw [his] at h0
    obtain rfl : es = es0 := Option.some.inj h0
    constructor
    · show ((db.ingredientinrecipe.filter
          (fun row : IngredientInRecipe => row.recipe ≠ rid) ++
        (es.filterMap (resolveEntry db)).map
          (fun p => (⟨rid, p.1.id, p.2⟩ : IngredientInRecipe))).filter
            (fun row : IngredientInRecipe => row.recipe = rid)).map _ = _
      rw [List.filter_append]
      have h1 : (db.ingredientinrecipe.filter
          (fun row => row.recipe ≠ rid)).filter
            (fun row => row.recipe = rid) = [] := by
        refine List.filter_eq_nil_iff.mpr (fun row hrow => ?_)
        rcases List.mem_filter.mp hrow with ⟨-, hne⟩
        simpa using of_decide_eq_true hne
      have h2 : ((es.filterMap (resolveEntry db)).map
          (fun p => (⟨rid, p.1.id, p.2⟩ : IngredientInRecipe))).filter
            (fun row => row.recipe = rid) =
          (es.filterMap (resolveEntry db)).map
            (fun p => ⟨rid, p.1.id, p.2⟩) := by
        refine List.filter_eq_self.mpr (fun row hrow => ?_)
        rcases List.mem_map.mp hrow with ⟨p, -, rfl⟩
        simp
      rw [h1, h2, List.nil_append, List.map_map]
      exact hpmap
    · intro row hrow hrec0 hmiss
      intro hcontra
      rcases List.mem_append.mp hcontra with hc | hc
      · rcases List.mem_filter.mp hc with ⟨-, hne⟩
        exact absurd hrec0 (by simpa using of_decide_eq_true hne)
      · rcases List.mem_map.mp hc with ⟨p, hp, hrow_eq⟩
        rcases List.mem_filterMap.mp hp with ⟨e, he, hre⟩
        rcases resolveEntry_of_ok db e
          (List.all_eq_true.mp hall e he) with
          ⟨i, a, ing, hid, -, -, -, hingid, -, hre'⟩
        rw [hre'] at hre
        rcases Option.some.inj hre with rfl
        refine hmiss e he ?_
        rw [hid]
        have hro : row.ingredient = ing.id := by rw [← hrow_eq]
        rw [hro, hingid]
  · show (db.ingredientinrecipe.filter
          (fun row : IngredientInRecipe => row.recipe ≠ rid) ++
        (es.filterMap (resolveEntry db)).map
          (fun p => (⟨rid, p.1.id, p.2⟩ : IngredientInRecipe))).filter
            (fun row : IngredientInRecipe => row.recipe ≠ rid) = _
    rw [List.filter_append]
    have h1 : (db.ingredientinrecipe.filter
        (fun row => row.recipe ≠ rid)).filter
          (fun row => row.recipe ≠ rid) =
        db.ingredientinrecipe.filter (fun row => row.recipe ≠ rid) := by
      refine List.filter_eq_self.mpr (fun row hrow => ?_)
      exact (List.mem_filter.mp hrow).2
    have h2 : ((es.filterMap (resolveEntry db)).map
        (fun p => (⟨rid, p.1.id, p.2⟩ : IngredientInRecipe))).filter
          (fun row => row.recipe ≠ rid) = [] := by
      refine List.filter_eq_nil_iff.mpr (fun row hrow => ?_)
      rcases List.mem_map.mp hrow with ⟨p, -, rfl⟩
      simp
    rw [h1, h2, List.append_nil]
  · rcases List.mem_map.mp hrec with ⟨r0, hr0, hrid⟩
    refine ⟨_, List.mem_map.mpr ⟨_, List.mem_map.mpr ⟨r0, hr0, rfl⟩, rfl⟩, ?_⟩
    by_cases h0id : r0.id = rid
    · rw [if_pos h0id]
      rw [if_pos (show ({ r0 with tags := ts.map Tag.id } : Recipe).id = rid
        from h0id)]
      exact hrid
    · exact absurd hrid h0id

/-- Witness for C5: on the sample state, updating recipe 1 (tags [1],
eggs ×2) with tags [2] and milk ×9 leaves exactly tag 2 and the milk row. -/
theorem update_replaces_witness :
    validInput sampleDB
      { name := "new", image := "img3", text := "t3", cooking_time := 7,
        tags := some [2], ingredients := some [⟨some 2, some 9⟩] } = true ∧
    (1 : Nat) ∈ sampleDB.recipes.map Recipe.id ∧
    ∃ db', runUpdate sampleDB 1
        { name := "new", image := "img3", text := "t3", cooking_time := 7,
          tags := some [2], ingredients := some [⟨some 2, some 9⟩] }
      = .ok db' ∧
      (∀ ids, (some [2] : Option (List Nat)) = some ids →
        ∀ r ∈ db'.recipes, r.id = 1 → r.tags = ids) ∧
      (∀ es, (some [⟨some 2, some 9⟩] :
          Option (List RawIngredientEntry)) = some es →
        (db'.ingredientinrecipe.filter (fun row => row.recipe = 1)).map
            (fun row => (some row.ingredient, some row.amount)) =
          es.map (fun e => (e.id, e.amount)) ∧
        (∀ row ∈ sampleDB.ingredientinrecipe, row.recipe = 1 →
          (∀ e ∈ es, e.id ≠ some row.ingredient) →
          row ∉ db'.ingredientinrecipe)) ∧
      db'.ingredientinrecipe.filter (fun row => row.recipe ≠ 1) =
        sampleDB.ingredientinrecipe.filter (fun row => row.recipe ≠ 1) ∧
      (∃ r ∈ db'.recipes, r.id = 1) :=
  ⟨by decide, by decide,
    update_replaces sampleDB 1
      { name := "new", image := "img3", text := "t3", cooking_time := 7,
        tags := some [2], ingredients := some [⟨some 2, some 9⟩] }
      (by decide) (by decide)⟩

/-! ## C6: PATCH with omitted tags / ingredients -/

/-- A PATCH body carrying only the scalar fields: `tags` and `ingredients`
are absent. -/
def scalarsOnlyInput : RecipeInput :=
  { name := "renamed", image := "img9", text := "t9", cooking_time := 5,
    tags := none, ingredients := none }

/-- C6 counterexample: recipe 1 exists with one tag and one ingredient row,
yet a PATCH that omits `tags` and `ingredients` — which the claim says should
leave both sets untouched and succeed — is rejected outright with the
non-field ingredients error, because the cross-field `validate` demands both
keys even in partial mode. -/
theorem partial_update_counterexample :
    scalarsOnlyInput.tags = none ∧ scalarsOnlyInput.ingredients = none ∧
    sampleDB.recipes.find? (fun r => r.id = 1) ≠ none ∧
    runUpdate sampleDB 1 scalarsOnlyInput =
      .error (.nonField .ingredientsEmpty) :=
  ⟨rfl, rfl, by decide, rfl⟩

/-- C6 (amended): a PATCH omitting both `tags` and `ingredients` — with a
cooking_time that passes its own field check — never reaches the write
pipeline: on every state and every recipe id it returns the non-field
ingredients error, and therefore writes nothing. -/
theorem partial_update_requires_ingredients (db : DB) (rid : Nat)
    (inp : RecipeInput) (htags : inp.tags = none)
    (hing : inp.ingredients = none) (hct : ¬ inp.cooking_time < 1) :
    runUpdate db rid inp = .error (.nonField .ingredientsEmpty) := by
  unfold runUpdate
  unfold runValidation
  rw [htags, hing]
  dsimp only [tagsFieldStage, ingredientsFieldStage, cookingTimeFieldStage]
  rw [if_neg hct]
  rfl

/-- Witness for C6's amended theorem at the sample state. -/
theorem partial_update_requires_ingredients_witness :
    scalarsOnlyInput.tags = none ∧ scalarsOnlyInput.ingredients = none ∧
    ¬ scalarsOnlyInput.cooking_time < 1 ∧
    runUpdate sampleDB 1 scalarsOnlyInput =
      .error (.nonField .ingredientsEmpty) :=
  ⟨rfl, rfl, by decide,
    partial_update_requires_ingredients sampleDB 1 scalarsOnlyInput rfl rfl
      (by decide)⟩

/-! ## C3: the write pipeline is not atomic -/

/-- A valid full update for recipe 1 of the sample state: new scalar fields,
tag set [2] replacing [1], ingredient set milk ×9 replacing eggs ×2. -/
def updCEInput : RecipeInput :=
  { name := "new", image := "img3", text := "t3", cooking_time := 7,
    tags := some [2], ingredients := some [⟨some 2, some 9⟩] }

/-- The validated data `updCEInput` resolves to. -/
def updCEData : ValidatedData :=
  { name := "new", image := "img3", text := "t3", cooking_time := 7,
    tags := [⟨2, "dinner", "din"⟩], ingredients := [(⟨2, "milk", "l"⟩, 9)] }

/-- C3 (refuting atomicity): no step of the update pipeline is wrapped in a
transaction, so every intermediate state is committed. For the valid update
`updCEInput` of recipe 1 the pipeline passes through five states; after the
second write (index 2, `ingredients.clear()`) the recipe has ZERO ingredient
rows while already carrying the new tag set and still the old cooking_time,
and after the first write (index 1) it mixes the new tag set with the old
ingredient row and old cooking_time — neither state is the claimed
"all-or-nothing" old or new snapshot, which only index 4 (the final state)
attains. -/
theorem update_write_not_atomic :
    runValidation sampleDB true updCEInput = .ok updCEData ∧
    runUpdate sampleDB 1 updCEInput =
      .ok (applySteps (updateSteps 1 updCEData) sampleDB) ∧
    (stepTrace (updateSteps 1 updCEData) sampleDB).length = 5 ∧
    ((stepTrace (updateSteps 1 updCEData) sampleDB)[1]?).map (fun s =>
        (s.ingredientinrecipe.filter (fun row => row.recipe = 1),
         (s.recipes.find? (fun r => r.id = 1)).map Recipe.tags,
         (s.recipes.find? (fun r => r.id = 1)).map Recipe.cooking_time)) =
      some ([⟨1, 1, 2⟩], some [2], some 5) ∧
    ((stepTrace (updateSteps 1 updCEData) sampleDB)[2]?).map (fun s =>
        (s.ingredientinrecipe.filter (fun row => row.recipe = 1),
         (s.recipes.find? (fun r => r.id = 1)).map Recipe.tags,
         (s.recipes.find? (fun r => r.id = 1)).map Recipe.cooking_time)) =
      some ([], some [2], some 5) ∧
    ((stepTrace (updateSteps 1 updCEData) sampleDB)[4]?).map (fun s =>
        (s.ingredientinrecipe.filter (fun row => row.recipe = 1),
         (s.recipes.find? (fun r => r.id = 1)).map Recipe.tags,
         (s.recipes.find? (fun r => r.id = 1)).map Recipe.cooking_time)) =
      some ([⟨1, 2, 9⟩], some [2], some 7) :=
  ⟨rfl, rfl, rfl, rfl, rfl, rfl⟩

end Foodgram
